import Mathlib

/-
Verification of the Smart-app extraction endpoints.

The repository exposes four serverless handlers:
  - api/bot.js, first handler  (model-first, Text defaults to a placeholder),
  - api/bot.js, second handler (heuristic-first, with helper functions
    detectLanguageFromCode, wrapAsParamStyle, extractImageUrl,
    extractHtmlSnippet, removeSnippetFromText),
  - the unnamed model-first handler (Text defaults to the original input),
  - api/imagine.js (image generation).

This file embeds the request validation, the regular-expression heuristics,
the JSON parsing / normalization, and the response emission as executable
Lean functions over JavaScript-like values, and proves the frozen claims
about them.  Text is modelled as a list of characters; the external model
call is a parameter of each handler (an Except value: the outcome of the
upstream call).
-/

set_option autoImplicit false

/-- Character strings, modelled as lists of characters. -/
abbrev Str := List Char

/-- Whitespace characters as matched by the \s regex class and by trim
(restricted to the ASCII range, which is all the handlers rely on). -/
def isWsChar (c : Char) : Bool :=
  c = ' ' || c = '\t' || c = '\n' || c = '\r' || c = '\x0b' || c = '\x0c'

/-- Word characters, the \w regex class: [A-Za-z0-9_]. -/
def isWordChar (c : Char) : Bool :=
  ('a' ≤ c && c ≤ 'z') || ('A' ≤ c && c ≤ 'Z') || ('0' ≤ c && c ≤ '9') || c = '_'

/-- ASCII letters, the [a-zA-Z] regex class. -/
def isAsciiLetter (c : Char) : Bool :=
  ('a' ≤ c && c ≤ 'z') || ('A' ≤ c && c ≤ 'Z')

/-- JavaScript String.prototype.trim on the modelled character set. -/
def trimStr (s : Str) : Str :=
  ((s.dropWhile isWsChar).reverse.dropWhile isWsChar).reverse

/-- Case folding used for the i regex flag. -/
def lowerStr (s : Str) : Str := s.map Char.toLower

/-- Case-insensitive prefix test (for regexes carrying the i flag). -/
def ciIsPrefix (pat s : Str) : Bool :=
  (lowerStr pat).isPrefixOf (lowerStr s)

/-- Splits s at the first occurrence of pat: returns (before, after) with
s = before ++ pat ++ after, scanning left to right, or none. -/
def splitSub (pat : Str) : Str → Option (Str × Str)
  | [] => if pat.isPrefixOf ([] : Str) then some ([], []) else none
  | c :: rest =>
    if pat.isPrefixOf (c :: rest) then some ([], (c :: rest).drop pat.length)
    else (splitSub pat rest).map (fun pq => (c :: pq.1, pq.2))

/-- Substring containment test. -/
def containsSub (pat s : Str) : Bool := (splitSub pat s).isSome

/-- JavaScript values as the handlers manipulate them: JSON values plus
undefined; arrays carry both their elements and their named properties
(a property assignment on an array succeeds in JavaScript). Numbers keep
their JSON lexeme, which is all the handlers ever inspect (truthiness). -/
inductive JsVal : Type where
  | undefined : JsVal
  | null : JsVal
  | bool : Bool → JsVal
  | num : Str → JsVal
  | str : Str → JsVal
  | arr : List JsVal → List (Str × JsVal) → JsVal
  | obj : List (Str × JsVal) → JsVal

instance : Inhabited JsVal := ⟨JsVal.undefined⟩

/-- Message carried by the modelled TypeError exceptions. -/
def tyErr : Str := "TypeError".data

/-- Truthiness of a numeric lexeme: a JSON numeric literal is falsy exactly
when it denotes zero, i.e. when its mantissa has no digit in 1..9. -/
def numLexTruthy (lex : Str) : Bool :=
  (lex.takeWhile (fun c => c ≠ 'e' && c ≠ 'E')).any (fun c => '1' ≤ c && c ≤ '9')

/-- JavaScript truthiness. -/
def truthy : JsVal → Bool
  | .undefined => false
  | .null => false
  | .bool b => b
  | .num lex => numLexTruthy lex
  | .str s => !s.isEmpty
  | .arr _ _ => true
  | .obj _ => true

/-- First binding of a key in a property list. -/
def lookupField (fs : List (Str × JsVal)) (k : Str) : Option JsVal :=
  match fs with
  | [] => none
  | p :: rest => if p.1 == k then some p.2 else lookupField rest k

/-- Property write on a property list: overwrite in place when the key is
present, append otherwise (JavaScript property-order semantics). -/
def objInsert (fs : List (Str × JsVal)) (k : Str) (v : JsVal) : List (Str × JsVal) :=
  if fs.any (fun p => p.1 == k) then fs.map (fun p => if p.1 == k then (k, v) else p)
  else fs ++ [(k, v)]

/-- Property read, as a JavaScript expression: throws TypeError on null and
undefined receivers, yields undefined for a missing key or a primitive
receiver. -/
def jsGet : JsVal → Str → Except Str JsVal
  | .undefined, _ => .error tyErr
  | .null, _ => .error tyErr
  | .obj fs, k => .ok ((lookupField fs k).getD .undefined)
  | .arr _ ps, k => .ok ((lookupField ps k).getD .undefined)
  | .bool _, _ => .ok .undefined
  | .num _, _ => .ok .undefined
  | .str _, _ => .ok .undefined

/-- Property write, as a strict-mode JavaScript statement: succeeds on
objects and arrays, throws TypeError on primitives, null and undefined. -/
def jsSet : JsVal → Str → JsVal → Except Str JsVal
  | .obj fs, k, v => .ok (.obj (objInsert fs k v))
  | .arr es ps, k, v => .ok (.arr es (objInsert ps k v))
  | _, _, _ => .error tyErr

/-- Nullish test (null or undefined), used by the ?? and ?. operators. -/
def nullish : JsVal → Bool
  | .undefined => true
  | .null => true
  | _ => false

/-- The JavaScript expression (v || null). -/
def jsOrNull (v : JsVal) : JsVal := if truthy v then v else .null

/-- The JavaScript expression (v || d) for a default value d. -/
def jsOrElse (v d : JsVal) : JsVal := if truthy v then v else d

/-- The JavaScript expression (a ?? b). -/
def nullCoalesce (a b : JsVal) : JsVal := if nullish a then b else a

/-- Whether an object (or array) value carries the given key. -/
def hasKey (v : JsVal) (k : Str) : Bool :=
  match v with
  | .obj fs => fs.any (fun p => p.1 == k)
  | .arr _ ps => ps.any (fun p => p.1 == k)
  | _ => false

/-- Total field read used in theorem statements: undefined when absent. -/
def jsField (v : JsVal) (k : Str) : JsVal :=
  match v with
  | .obj fs => (lookupField fs k).getD .undefined
  | .arr _ ps => (lookupField ps k).getD .undefined
  | _ => .undefined

/-- Whether a value is a string. -/
def isStringV : JsVal → Bool
  | .str _ => true
  | _ => false

/-- Whether a value is null. -/
def isNullV : JsVal → Bool
  | .null => true
  | _ => false

/-- JSON whitespace (as accepted by JSON.parse between tokens). -/
def isJsonWs (c : Char) : Bool := c = ' ' || c = '\t' || c = '\n' || c = '\r'

/-- Skips JSON whitespace. -/
def skipJsonWs (s : Str) : Str := s.dropWhile isJsonWs

/-- Value of a hexadecimal digit (by code point: digits, then the two
letter ranges). -/
def hexVal (c : Char) : Option Nat :=
  let n := c.toNat
  if 48 ≤ n && n ≤ 57 then some (n - 48)
  else if 97 ≤ n && n ≤ 102 then some (n - 87)
  else if 65 ≤ n && n ≤ 70 then some (n - 55)
  else none

/-- Parses the body of a JSON string after the opening quote; returns the
decoded content and the remainder after the closing quote.  The fuel is
always called with at least the length of the input plus one. -/
def parseJsonStringBody : Nat → Str → Option (Str × Str)
  | 0, _ => none
  | f+1, s =>
    match s with
    | [] => none
    | '"' :: rest => some ([], rest)
    | '\\' :: esc =>
      match esc with
      | '"' :: r => (parseJsonStringBody f r).map (fun p => ('"' :: p.1, p.2))
      | '\\' :: r => (parseJsonStringBody f r).map (fun p => ('\\' :: p.1, p.2))
      | '/' :: r => (parseJsonStringBody f r).map (fun p => ('/' :: p.1, p.2))
      | 'b' :: r => (parseJsonStringBody f r).map (fun p => ('\x08' :: p.1, p.2))
      | 'f' :: r => (parseJsonStringBody f r).map (fun p => ('\x0c' :: p.1, p.2))
      | 'n' :: r => (parseJsonStringBody f r).map (fun p => ('\n' :: p.1, p.2))
      | 'r' :: r => (parseJsonStringBody f r).map (fun p => ('\r' :: p.1, p.2))
      | 't' :: r => (parseJsonStringBody f r).map (fun p => ('\t' :: p.1, p.2))
      | 'u' :: h1 :: h2 :: h3 :: h4 :: r =>
        match hexVal h1, hexVal h2, hexVal h3, hexVal h4 with
        | some a, some b, some c, some d =>
          (parseJsonStringBody f r).map
            (fun p => (Char.ofNat (((a * 16 + b) * 16 + c) * 16 + d) :: p.1, p.2))
        | _, _, _, _ => none
      | _ => none
    | c :: rest =>
      if c.toNat < 32 then none
      else (parseJsonStringBody f rest).map (fun p => (c :: p.1, p.2))

/-- Parses an optional JSON fraction part, returning its lexeme. -/
def parseFrac (s : Str) : Option (Str × Str) :=
  match s with
  | '.' :: r =>
    let ds := r.takeWhile Char.isDigit
    if ds.isEmpty then none else some ('.' :: ds, r.drop ds.length)
  | _ => some ([], s)

/-- Parses an optional JSON exponent part, returning its lexeme. -/
def parseExp (s : Str) : Option (Str × Str) :=
  match s with
  | [] => some ([], [])
  | c :: r =>
    if c = 'e' || c = 'E' then
      let sr : Str × Str :=
        match r with
        | '+' :: rr => (['+'], rr)
        | '-' :: rr => (['-'], rr)
        | _ => ([], r)
      let ds := sr.2.takeWhile Char.isDigit
      if ds.isEmpty then none else some (c :: sr.1 ++ ds, sr.2.drop ds.length)
    else some ([], c :: r)

/-- Parses a JSON number, returning its lexeme and the remainder. -/
def parseJsonNumber (s : Str) : Option (Str × Str) := do
  let signRest : Str × Str :=
    match s with
    | '-' :: r => (['-'], r)
    | _ => ([], s)
  match signRest.2 with
  | [] => none
  | c :: r =>
    if c = '0' then do
      let fr ← parseFrac r
      let ex ← parseExp fr.2
      some (signRest.1 ++ '0' :: fr.1 ++ ex.1, ex.2)
    else if '1' ≤ c && c ≤ '9' then do
      let ds := r.takeWhile Char.isDigit
      let fr ← parseFrac (r.drop ds.length)
      let ex ← parseExp fr.2
      some (signRest.1 ++ c :: ds ++ fr.1 ++ ex.1, ex.2)
    else none

mutual

/-- Recursive-descent JSON value parsing (fuel-indexed; the top entry
point supplies ample fuel, so fuel exhaustion never occurs on inputs the
handlers see).  Mirrors JSON.parse including last-wins duplicate keys. -/
def pVal : Nat → Str → Option (JsVal × Str)
  | 0, _ => none
  | f+1, s =>
    match skipJsonWs s with
    | 't' :: r => if "rue".data.isPrefixOf r then some (.bool true, r.drop 3) else none
    | 'f' :: r => if "alse".data.isPrefixOf r then some (.bool false, r.drop 4) else none
    | 'n' :: r => if "ull".data.isPrefixOf r then some (.null, r.drop 3) else none
    | '"' :: r => (parseJsonStringBody (r.length + 1) r).map (fun p => (.str p.1, p.2))
    | '\x7b' :: r =>
      match skipJsonWs r with
      | '\x7d' :: r2 => some (.obj [], r2)
      | _ => pMembers f r []
    | '[' :: r =>
      match skipJsonWs r with
      | ']' :: r2 => some (.arr [] [], r2)
      | _ => pElems f r []
    | s2 => (parseJsonNumber s2).map (fun p => (.num p.1, p.2))

/-- Parses the members of a JSON object after the opening brace. -/
def pMembers : Nat → Str → List (Str × JsVal) → Option (JsVal × Str)
  | 0, _, _ => none
  | f+1, s, acc =>
    match skipJsonWs s with
    | '"' :: r =>
      match parseJsonStringBody (r.length + 1) r with
      | none => none
      | some (key, r2) =>
        match skipJsonWs r2 with
        | ':' :: r3 =>
          match pVal f r3 with
          | none => none
          | some (v, r4) =>
            match skipJsonWs r4 with
            | ',' :: r5 => pMembers f r5 (objInsert acc key v)
            | '\x7d' :: r5 => some (.obj (objInsert acc key v), r5)
            | _ => none
        | _ => none
    | _ => none

/-- Parses the elements of a JSON array after the opening bracket. -/
def pElems : Nat → Str → List JsVal → Option (JsVal × Str)
  | 0, _, _ => none
  | f+1, s, acc =>
    match pVal f s with
    | none => none
    | some (v, r) =>
      match skipJsonWs r with
      | ',' :: r2 => pElems f r2 (acc ++ [v])
      | ']' :: r2 => some (.arr (acc ++ [v]) [], r2)
      | _ => none

end

/-- JSON.parse: succeeds only when the whole input is one JSON value. -/
def jsonParse (s : Str) : Option JsVal :=
  match pVal (2 * s.length + 4) s with
  | some (v, rest) => if skipJsonWs rest = [] then some v else none
  | none => none

/-- Lower-case hexadecimal digit. -/
def hexDigit (n : Nat) : Char :=
  if n < 10 then Char.ofNat ('0'.toNat + n) else Char.ofNat ('a'.toNat + n - 10)

/-- JSON string escaping for one character. -/
def escJsonChar (c : Char) : Str :=
  if c = '"' then ['\\', '"']
  else if c = '\\' then ['\\', '\\']
  else if c = '\n' then ['\\', 'n']
  else if c = '\t' then ['\\', 't']
  else if c = '\r' then ['\\', 'r']
  else if c = '\x08' then ['\\', 'b']
  else if c = '\x0c' then ['\\', 'f']
  else if c.toNat < 32 then ['\\', 'u', '0', '0', hexDigit (c.toNat / 16), hexDigit (c.toNat % 16)]
  else [c]

/-- Serialization of a string as a JSON string literal. -/
def escJsonStr (s : Str) : Str :=
  '"' :: s.foldr (fun c acc => escJsonChar c ++ acc) ['"']

mutual

/-- JSON.stringify on the modelled values (the handlers only apply it to
values produced by JSON.parse, so undefined cannot occur). -/
def jsonStringify : JsVal → Str
  | .undefined => "null".data
  | .null => "null".data
  | .bool true => "true".data
  | .bool false => "false".data
  | .num lex => lex
  | .str s => escJsonStr s
  | .arr es _ => '[' :: (stringifyElems es ++ [']'])
  | .obj fs => '\x7b' :: (stringifyMembers fs ++ ['\x7d'])

/-- Serializes array elements, comma separated. -/
def stringifyElems : List JsVal → Str
  | [] => []
  | [v] => jsonStringify v
  | v :: rest => jsonStringify v ++ ',' :: stringifyElems rest

/-- Serializes object members, comma separated. -/
def stringifyMembers : List (Str × JsVal) → Str
  | [] => []
  | [(k, v)] => escJsonStr k ++ ':' :: jsonStringify v
  | (k, v) :: rest => escJsonStr k ++ ':' :: jsonStringify v ++ ',' :: stringifyMembers rest

end

mutual

/-- The String() coercion on the modelled values. -/
def jsToString : JsVal → Str
  | .undefined => "undefined".data
  | .null => "null".data
  | .bool true => "true".data
  | .bool false => "false".data
  | .num lex => lex
  | .str s => s
  | .arr es _ => joinToString es
  | .obj _ => "[object Object]".data

/-- Array.prototype.toString: elements joined by commas, null and
undefined elements rendered empty. -/
def joinToString : List JsVal → Str
  | [] => []
  | [v] =>
    match v with
    | .undefined => []
    | .null => []
    | w => jsToString w
  | v :: rest =>
    (match v with
     | .undefined => []
     | .null => []
     | w => jsToString w) ++ ',' :: joinToString rest

end

/-- The triple-backtick fence delimiter. -/
def tripleTick : Str := "```".data

/-- Containment of a triple backtick, the test regex of the fallback. -/
def containsTriple (s : Str) : Bool := containsSub tripleTick s

/-- One attempt of the fenced-code regex (triple backticks, an optional
greedy word group, greedy whitespace, a lazy any-character group, closing
triple backticks) at a fixed start position.  Backtracking into the word
or whitespace group can never help: the characters they release contain
no backtick, so no earlier closing fence can appear; hence the maximal
runs are the only candidates, and the lazy group reaches the first
closing fence at or after them. -/
def tryFenceAt (s : Str) : Option (Str × Option Str × Str) :=
  if tripleTick.isPrefixOf s then
    let rest := s.drop 3
    let tag := rest.takeWhile isWordChar
    let rest2 := rest.drop tag.length
    let ws := rest2.takeWhile isWsChar
    let rest3 := rest2.drop ws.length
    match splitSub tripleTick rest3 with
    | some (inner, _) =>
      some (tripleTick ++ tag ++ ws ++ inner ++ tripleTick,
            (if tag.isEmpty then none else some tag), inner)
    | none => none
  else none

/-- Leftmost-match search of the fenced-code regex: the engine tries every
start position in order.  Returns (full match, language group, inner
group). -/
def fencedSearch : Str → Option (Str × Option Str × Str)
  | [] => none
  | c :: rest =>
    match tryFenceAt (c :: rest) with
    | some m => some m
    | none => fencedSearch rest

/-- Matches https?:// case-insensitively at the current position (the s is
taken greedily, which coincides with trying the 8-character form first);
returns the consumed original characters and the remainder. -/
def trySchemeAt (s : Str) : Option (Str × Str) :=
  if ciIsPrefix "https://".data s then some (s.take 8, s.drop 8)
  else if ciIsPrefix "http://".data s then some (s.take 7, s.drop 7)
  else none

/-- The image-extension alternation of the bare-URL regex, in source
order. -/
def imageExts : List Str :=
  ["png".data, "jpg".data, "jpeg".data, "gif".data, "webp".data, "svg".data]

/-- Greedy backtracking of [^\s]+ before the extension alternation: the
run length is tried from longest to 1; at each length the alternatives
are tried in order.  Returns the total matched length after the scheme. -/
def extSearchDown (rest : Str) : Nat → Option Nat
  | 0 => none
  | k+1 =>
    match imageExts.find? (fun e => ciIsPrefix e (rest.drop (k+1))) with
    | some e => some (k + 1 + e.length)
    | none => extSearchDown rest k

/-- One attempt of the bare image URL regex
(https?://[^\s]+(png|jpg|jpeg|gif|webp|svg), i flag) at a position. -/
def tryImagePlainAt (s : Str) : Option Str :=
  match trySchemeAt s with
  | none => none
  | some (scheme, rest) =>
    let run := rest.takeWhile (fun c => !isWsChar c)
    match extSearchDown rest run.length with
    | some n => some (scheme ++ rest.take n)
    | none => none

/-- Leftmost-match search of the bare image URL regex. -/
def imagePlainSearch : Str → Option Str
  | [] => none
  | c :: rest =>
    match tryImagePlainAt (c :: rest) with
    | some u => some u
    | none => imagePlainSearch rest

/-- Group of the markdown-image regex after a candidate close bracket:
https?:// then a nonempty greedy run of characters that are neither
whitespace nor a close parenthesis (the group ends the regex, so no
backtracking into it is ever needed). -/
def tryMdGroupAt (s : Str) : Option Str :=
  match trySchemeAt s with
  | none => none
  | some (scheme, rest) =>
    let run := rest.takeWhile (fun c => !isWsChar c && c ≠ ')')
    if run.isEmpty then none else some (scheme ++ run)

/-- Greedy [^]* of the markdown-image regex: close-bracket positions are
tried from the last backwards; the group must match immediately after. -/
def mdBracketSearch (rest : Str) : Nat → Option Str
  | 0 => none
  | j+1 =>
    match (if rest.get? j = some ']' then tryMdGroupAt (rest.drop (j + 1)) else none) with
    | some g => some g
    | none => mdBracketSearch rest j

/-- One attempt of the markdown-image regex of the heuristic-first
handler.  As written in the source the regex is an exclamation mark, a
greedy any-character run, a close bracket, then directly the URL group:
no literal open parenthesis follows the bracket. -/
def tryMdAt (s : Str) : Option Str :=
  match s with
  | '!' :: rest => mdBracketSearch rest rest.length
  | _ => none

/-- Leftmost-match search of the markdown-image regex. -/
def mdImageSearch : Str → Option Str
  | [] => none
  | c :: rest =>
    match tryMdAt (c :: rest) with
    | some u => some u
    | none => mdImageSearch rest

/-- Helper extractImageUrl of the heuristic-first handler: null for empty
input, else the markdown-image pattern, else the bare image URL pattern,
else null. -/
def extractImageUrl (text : Str) : Option Str :=
  if text.isEmpty then none
  else
    match mdImageSearch text with
    | some u => some u
    | none =>
      match imagePlainSearch text with
      | some u => some u
      | none => none

/-- One attempt of the inline-HTML detector regex (an open angle bracket,
a nonempty letter group, then a whitespace or close angle character) at a
position.  Shrinking the greedy letter group only ever exposes a letter,
which the final alternative rejects, so only the maximal run matters. -/
def tryHtmlLikeAt (s : Str) : Bool :=
  match s with
  | '<' :: rest =>
    let run := rest.takeWhile isAsciiLetter
    if run.isEmpty then false
    else
      match rest.drop run.length with
      | c :: _ => isWsChar c || c = '>'
      | [] => false
  | _ => false

/-- Test of the inline-HTML detector regex over the whole input. -/
def htmlLikeTest : Str → Bool
  | [] => false
  | c :: rest => tryHtmlLikeAt (c :: rest) || htmlLikeTest rest

/-- Splits s at the last case-insensitive occurrence of pat. -/
def lastSplitSubCi (pat : Str) : Str → Option (Str × Str)
  | [] => if pat.isEmpty then some ([], []) else none
  | c :: rest =>
    match lastSplitSubCi pat rest with
    | some (p, q) => some (c :: p, q)
    | none =>
      if ciIsPrefix pat (c :: rest) then some ([], (c :: rest).drop pat.length)
      else none

/-- Backtracking over the greedy tag group of the balanced-pair regex of
extractHtmlSnippet: tag lengths from the maximal word run down to 1; for
each, the greedy any-character run selects the last case-insensitive
occurrence of the matching close tag.  Returns the consumed length after
the open angle bracket. -/
def tryHtmlTagLen (s0 : Str) : Nat → Option Nat
  | 0 => none
  | l+1 =>
    let tag := s0.take (l + 1)
    let closing := "</".data ++ tag ++ ">".data
    match lastSplitSubCi closing (s0.drop (l + 1)) with
    | some (middle, _) => some ((l + 1) + middle.length + closing.length)
    | none => tryHtmlTagLen s0 l

/-- One attempt of the balanced-pair regex of extractHtmlSnippet at a
position: returns the full match. -/
def tryHtmlAt (s : Str) : Option Str :=
  match s with
  | '<' :: rest =>
    let maxTag := rest.takeWhile isWordChar
    match tryHtmlTagLen rest maxTag.length with
    | some n => some ('<' :: rest.take n)
    | none => none
  | _ => none

/-- Leftmost-match search of the balanced-pair regex. -/
def htmlBalancedSearch : Str → Option Str
  | [] => none
  | c :: rest =>
    match tryHtmlAt (c :: rest) with
    | some m => some m
    | none => htmlBalancedSearch rest

/-- Index of the first occurrence of a character. -/
def idxOf (c : Char) (s : Str) : Option Nat := s.findIdx? (fun x => x = c)

/-- Index of the last occurrence of a character. -/
def lastIdxOf (c : Char) (s : Str) : Option Nat :=
  (s.reverse.findIdx? (fun x => x = c)).map (fun i => s.length - 1 - i)

/-- Helper extractHtmlSnippet of the heuristic-first handler: first the
balanced same-tag pair regex; on failure the crude span from the first
open angle to the last close angle; else null. -/
def extractHtmlSnippet (text : Str) : Option Str :=
  match htmlBalancedSearch text with
  | some m => some m
  | none =>
    match idxOf '<' text, lastIdxOf '>' text with
    | some start, some stop =>
      if start < stop then some ((text.drop start).take (stop + 1 - start)) else none
    | _, _ => none

/-- Helper detectLanguageFromCode of the heuristic-first handler: an
ordered chain of substring and regex checks over the trimmed code. -/
def detectLanguageFromCode (code : Str) : Str :=
  let c := trimStr code
  if (match c.dropWhile isWsChar with | '<' :: _ => true | _ => false) then "html".data
  else if containsSub "function".data c || containsSub "console.log".data c
      || containsSub "=>".data c then "javascript".data
  else if containsSub "def ".data c
      || (containsSub "import ".data c && containsSub "from".data c) then "python".data
  else if containsSub "#include".data c || containsSub "int main".data c then "c/c++".data
  else "unknown".data

/-- Test of the anchored comment-wrapper regex of wrapAsParamStyle: the
value starts with an open comment and, past those four characters, ends
with a close comment. -/
def isCommentWrapped (s : Str) : Bool :=
  "<!--".data.isPrefixOf s && "-->".data.isSuffixOf (s.drop 4)

/-- Helper wrapAsParamStyle of the heuristic-first handler. -/
def wrapAsParamStyle (code : Str) : Str :=
  if isCommentWrapped code || code.isEmpty then code
  else if (match code.dropWhile isWsChar with | '<' :: _ => true | _ => false) then
    "<!--\n".data ++ code ++ "\n-->".data
  else code

/-- JavaScript String.prototype.replace with a plain string pattern:
replaces the first occurrence only. -/
def replaceFirst (s pat repl : Str) : Str :=
  match splitSub pat s with
  | some (pre, post) => pre ++ repl ++ post
  | none => s

/-- Helper removeSnippetFromText of the heuristic-first handler. -/
def removeSnippetFromText (full snippet : Str) : Str :=
  if snippet.isEmpty then trimStr full
  else trimStr (replaceFirst full snippet [])

/-- Key constants used by the handlers. -/
def kCode : Str := "Code".data

/-- Key Language. -/
def kLanguage : Str := "Language".data

/-- Key Text. -/
def kText : Str := "Text".data

/-- Key ImageUrl. -/
def kImageUrl : Str := "ImageUrl".data

/-- Key success. -/
def kSuccess : Str := "success".data

/-- Key error. -/
def kError : Str := "error".data

/-- Key details. -/
def kDetails : Str := "details".data

/-- Key response. -/
def kResponse : Str := "response".data

/-- Key source. -/
def kSource : Str := "source".data

/-- Key text of the request body. -/
def ktext : Str := "text".data

/-- Key prompt of the request body. -/
def kPrompt : Str := "prompt".data

/-- The POST method string. -/
def postMethod : Str := "POST".data

/-- Result of one modelled request: HTTP status, JSON body, and how many
times the external model was invoked while producing it. -/
structure HResult where
  status : Nat
  body : JsVal
  modelCalls : Nat

/-- The 405 body of the model-first handlers and of imagine. -/
def err405 : JsVal :=
  .obj [(kSuccess, .bool false), (kError, .str "Method not allowed".data)]

/-- The 400 body of the model-first handlers. -/
def err400Text : JsVal :=
  .obj [(kSuccess, .bool false), (kError, .str "Text (non-empty string) is required".data)]

/-- The catch-block 500 body of the model-first handlers and of imagine. -/
def err500 (details : Str) : JsVal :=
  .obj [(kSuccess, .bool false), (kError, .str "Internal Server Error".data),
        (kDetails, .str details)]

/-- The parse step of the model-first handlers: JSON.parse of the model
output, falling back to an object holding the whole output as Text. -/
def parsedOfOutput (output : Str) : JsVal :=
  match jsonParse output with
  | some v => v
  | none => .obj [(kText, .str output)]

/-- The fallback Code template of the model-first handlers: the trimmed
inner group wrapped in the comment-like delimiters of the source. -/
def wrapFallbackCode (inner : Str) : Str :=
  "<!--".data ++ trimStr inner ++ "->".data

/-- The fallback Language expression of the model-first handlers: the
language group, or unknown when the group did not participate (the group
is a nonempty word run whenever present, so the or-default only fires on
absence). -/
def langGroupOrUnknown (lang : Option Str) : Str :=
  match lang with
  | some l => if l.isEmpty then "unknown".data else l
  | none => "unknown".data

/-- The two fallback blocks shared verbatim by both model-first handlers:
fill Code and Language from the first fenced block of the original input
when Code is falsy and the input holds a triple backtick; then fill
ImageUrl from the bare image URL regex over the original input when
ImageUrl is falsy.  Property reads and strict-mode writes can throw,
which the callers surface as their catch-all 500. -/
def fenceImageFill (text : Str) (parsed0 : JsVal) : Except Str JsVal :=
  match jsGet parsed0 kCode with
  | .error e => .error e
  | .ok c =>
    let afterCode : Except Str JsVal :=
      if !truthy c && containsTriple text then
        match fencedSearch text with
        | some (_, lang, inner) =>
          match jsSet parsed0 kCode (.str (wrapFallbackCode inner)) with
          | .error e => .error e
          | .ok p1 => jsSet p1 kLanguage (.str (langGroupOrUnknown lang))
        | none => .ok parsed0
      else .ok parsed0
    match afterCode with
    | .error e => .error e
    | .ok p2 =>
      match jsGet p2 kImageUrl with
      | .error e => .error e
      | .ok i =>
        if !truthy i then
          match imagePlainSearch text with
          | some u => jsSet p2 kImageUrl (.str u)
          | none => .ok p2
        else .ok p2

/-- The final structured return of the model-first handlers: each of
Code, Language, ImageUrl is the parsed field or null, Text defaults to
the given variant default (the placeholder in api-bot.js, the original
input in the unnamed handler). -/
def emitModelFirst (dfltText : Str) (parsed : JsVal) : Except Str JsVal :=
  match jsGet parsed kCode with
  | .error e => .error e
  | .ok cv =>
    match jsGet parsed kLanguage with
    | .error e => .error e
    | .ok lv =>
      match jsGet parsed kText with
      | .error e => .error e
      | .ok tv =>
        match jsGet parsed kImageUrl with
        | .error e => .error e
        | .ok iv =>
          .ok (.obj [(kCode, jsOrNull cv), (kLanguage, jsOrNull lv),
                     (kText, jsOrElse tv (.str dfltText)), (kImageUrl, jsOrNull iv)])

/-- The Text default of the first model-first handler. -/
def placeholderText : Str := "Processed successfully.".data

/-- The model-first handler of api-bot.js.  The model parameter is the
outcome of the generateContent call combined with the response-text
read (the source coerces a missing text to the empty string): on success
the output string, on error the message of the thrown error.  The body
destructuring happens outside the try block, so a null or undefined body
is an uncaught crash, modelled as the error of the outer Except.  The
validator chain (falsy, or not a string, or blank after trim) collapses
to: not a string, or blank after trim — an empty string is both falsy
and blank, with the same 400 response either way. -/
def handlerA (method : Str) (reqBody : JsVal) (model : Except Str Str) :
    Except Unit HResult :=
  if method ≠ postMethod then .ok ⟨405, err405, 0⟩
  else
    match jsGet reqBody ktext with
    | .error _ => .error ()
    | .ok t =>
      match t with
      | .str s =>
        if (trimStr s).isEmpty then .ok ⟨400, err400Text, 0⟩
        else
          match model with
          | .error msg => .ok ⟨500, err500 msg, 1⟩
          | .ok output =>
            match fenceImageFill s (parsedOfOutput output) with
            | .error msg => .ok ⟨500, err500 msg, 1⟩
            | .ok p =>
              match emitModelFirst placeholderText p with
              | .error msg => .ok ⟨500, err500 msg, 1⟩
              | .ok resp =>
                .ok ⟨200, .obj [(kSuccess, .bool true), (kResponse, resp)], 1⟩
      | _ => .ok ⟨400, err400Text, 0⟩

/-- The unnamed model-first handler: identical control flow, with Text
defaulting to the original input text. -/
def handlerC (method : Str) (reqBody : JsVal) (model : Except Str Str) :
    Except Unit HResult :=
  if method ≠ postMethod then .ok ⟨405, err405, 0⟩
  else
    match jsGet reqBody ktext with
    | .error _ => .error ()
    | .ok t =>
      match t with
      | .str s =>
        if (trimStr s).isEmpty then .ok ⟨400, err400Text, 0⟩
        else
          match model with
          | .error msg => .ok ⟨500, err500 msg, 1⟩
          | .ok output =>
            match fenceImageFill s (parsedOfOutput output) with
            | .error msg => .ok ⟨500, err500 msg, 1⟩
            | .ok p =>
              match emitModelFirst s p with
              | .error msg => .ok ⟨500, err500 msg, 1⟩
              | .ok resp =>
                .ok ⟨200, .obj [(kSuccess, .bool true), (kResponse, resp)], 1⟩
      | _ => .ok ⟨400, err400Text, 0⟩

/-- The imagine handler.  The model parameter is the outcome of the
generateContent call combined with the inline-data chain read: on success
the chain value (undefined when no image part came back), on error the
message of the thrown error. -/
def handlerImagine (method : Str) (reqBody : JsVal) (model : Except Str JsVal) :
    Except Unit HResult :=
  if method ≠ postMethod then .ok ⟨405, err405, 0⟩
  else
    match jsGet reqBody kPrompt with
    | .error _ => .error ()
    | .ok p =>
      if !truthy p || !isStringV p then
        .ok ⟨400, .obj [(kSuccess, .bool false), (kError, .str "Prompt is required".data)], 0⟩
      else
        match model with
        | .error msg => .ok ⟨500, err500 msg, 1⟩
        | .ok chainVal =>
          if !truthy chainVal then
            .ok ⟨500, .obj [(kSuccess, .bool false),
                  (kError, .str "No image generated".data)], 1⟩
          else
            .ok ⟨200, .obj [(kSuccess, .bool true),
                  ("imageUrl".data,
                   .str ("data:image/png;base64,".data ++ jsToString chainVal))], 1⟩

/-- The request body reading of the heuristic-first handler: a raw string
body is taken as is, otherwise the optionally-chained text field with an
empty-string nullish default.  Never throws. -/
def inputTextOf (reqBody : JsVal) : JsVal :=
  match reqBody with
  | .str s => .str s
  | _ => nullCoalesce (if nullish reqBody then .undefined else jsField reqBody ktext) (.str [])

/-- The 400 body of the heuristic-first handler. -/
def errB400 : JsVal :=
  .obj [(kError, .str "No text provided in request body (send text or \x7b text: \"...\" \x7d)".data)]

/-- Outcome of a resolved fetch: the ok flag, the HTTP status, and the
raw response body text (r.json() parses it, r.text() returns it). -/
structure FetchResp where
  ok : Bool
  status : Nat
  bodyText : Str

/-- One guarded property step of an optional chain: nullish receivers
short circuit to undefined, any other receiver is read totally. -/
def optStep (v : JsVal) (k : Str) : JsVal :=
  if nullish v then .undefined else jsField v k

/-- One guarded index step of an optional chain. -/
def optIdx (v : JsVal) (n : Nat) : JsVal :=
  if nullish v then .undefined
  else
    match v with
    | .arr es _ => (es.get? n).getD .undefined
    | .obj fs => (lookupField fs (toString n).data).getD .undefined
    | .str s => (match s.get? n with | some c => .str [c] | none => .undefined)
    | _ => .undefined

/-- The first brace to the last brace, greedy: the json-block rescue
regex of the heuristic-first handler. -/
def braceSpan (s : Str) : Option Str :=
  match idxOf '\x7b' s, lastIdxOf '\x7d' s with
  | some i, some j => if i < j then some ((s.drop i).take (j + 1 - i)) else none
  | _, _ => none

/-- The model-output path of the heuristic-first handler, from the parsed
fetch JSON onwards: locate the model text through the fallback chain,
parse JSON out of it (with the brace-block rescue), and emit either the
model-raw or the model-parsed 200 response.  The error side carries the
thrown message and the model-call count for the catch-all. -/
def bModelPath (s : Str) (result : JsVal) : Except (Str × Nat) HResult :=
  match jsGet result "output".data with
  | .error e => .error (e, 1)
  | .ok out =>
    let c1 := optStep (optIdx (optStep (optIdx out 0) "content".data) 0) ktext
    match jsGet result "candidates".data with
    | .error e => .error (e, 1)
    | .ok cand =>
      let c2 := optStep (optIdx cand 0) "output".data
      match jsGet result ktext with
      | .error e => .error (e, 1)
      | .ok c3 =>
        let modelText :=
          nullCoalesce c1 (nullCoalesce c2 (nullCoalesce c3 (.str (jsonStringify result))))
        let parsedE : Except (Str × Nat) JsVal :=
          match jsonParse (jsToString modelText) with
          | some v => .ok v
          | none =>
            match modelText with
            | .str ms =>
              match braceSpan ms with
              | some blk =>
                match jsonParse blk with
                | some v => .ok v
                | none => .ok .null
              | none => .ok .null
            | _ => .error (tyErr, 1)
        match parsedE with
        | .error e => .error e
        | .ok parsed =>
          if !truthy parsed then
            .ok ⟨200, .obj [(kCode, .null), (kLanguage, .null), (kText, .str s),
                  (kImageUrl, match extractImageUrl s with | some u => .str u | none => .null),
                  (kSource, .str "model-raw".data), ("model_output".data, modelText)], 1⟩
          else
            match jsGet parsed kCode, jsGet parsed kLanguage,
                  jsGet parsed kText, jsGet parsed kImageUrl with
            | .ok cv, .ok lv, .ok tv, .ok iv =>
              .ok ⟨200, .obj [(kCode, nullCoalesce cv .null),
                    (kLanguage, nullCoalesce lv .null),
                    (kText, nullCoalesce tv .null),
                    (kImageUrl, nullCoalesce iv .null),
                    (kSource, .str "model-parsed".data)], 1⟩
            | _, _, _, _ => .error (tyErr, 1)

/-- The main body of the heuristic-first handler after validation:
fenced-block short circuit, inline-HTML short circuit, environment
check, then the upstream call. -/
def handlerBMain (s : Str) (envUrl envKey : Str)
    (fetchOutcome : Except Str FetchResp) : Except (Str × Nat) HResult :=
  match fencedSearch s with
  | some (full, langGroup, inner) =>
    let langTag := trimStr (match langGroup with | some l => l | none => [])
    let lang := if langTag.isEmpty then detectLanguageFromCode inner else langTag
    let code := trimStr inner
    let textOnly := trimStr (replaceFirst s full [])
    let imageurl := extractImageUrl s
    .ok ⟨200, .obj [
      (kCode, .str (wrapAsParamStyle code)),
      (kLanguage, .str (if lang.isEmpty then "unknown".data else lang)),
      (kText, if textOnly.isEmpty then .null else .str textOnly),
      (kImageUrl, match imageurl with | some u => .str u | none => .null),
      (kSource, .str "heuristic".data)], 0⟩
  | none =>
    if htmlLikeTest s then
      let codeCandidate :=
        match extractHtmlSnippet s with
        | some m => if m.isEmpty then s else m
        | none => s
      let imageurl := extractImageUrl s
      .ok ⟨200, .obj [
        (kCode, .str (wrapAsParamStyle (trimStr codeCandidate))),
        (kLanguage, .str "html".data),
        (kText, .str (removeSnippetFromText s codeCandidate)),
        (kImageUrl, match imageurl with | some u => .str u | none => .null),
        (kSource, .str "heuristic-html-detect".data)], 0⟩
    else if envUrl.isEmpty || envKey.isEmpty then
      .ok ⟨500, .obj [(kError,
            .str "Server misconfigured: GEMINI_API_URL and GEMINI_API_KEY must be set in environment.".data)], 0⟩
    else
      match fetchOutcome with
      | .error msg => .error (msg, 1)
      | .ok resp =>
        if !resp.ok then
          .ok ⟨502, .obj [(kError, .str "Upstream model error".data),
                ("status".data, .num (toString resp.status).data),
                ("body".data, .str resp.bodyText)], 1⟩
        else
          match jsonParse resp.bodyText with
          | none => .error ("SyntaxError".data, 1)
          | some result => bModelPath s result

/-- The try block of the heuristic-first handler: method check, body
reading, validation (reading .trim on a truthy non-string throws), then
the main body. -/
def handlerBTry (method : Str) (reqBody : JsVal) (envUrl envKey : Str)
    (fetchOutcome : Except Str FetchResp) : Except (Str × Nat) HResult :=
  if method ≠ postMethod then
    .ok ⟨405, .obj [(kError, .str "Method not allowed - use POST".data)], 0⟩
  else
    let inputText := inputTextOf reqBody
    if !truthy inputText then .ok ⟨400, errB400, 0⟩
    else
      match inputText with
      | .str s =>
        if (trimStr s).isEmpty then .ok ⟨400, errB400, 0⟩
        else handlerBMain s envUrl envKey fetchOutcome
      | _ => .error (tyErr, 0)

/-- The heuristic-first handler of api-bot.js: the whole body runs inside
one try block whose catch returns the 500 internal-error response. -/
def handlerB (method : Str) (reqBody : JsVal) (envUrl envKey : Str)
    (fetchOutcome : Except Str FetchResp) : HResult :=
  match handlerBTry method reqBody envUrl envKey fetchOutcome with
  | .ok r => r
  | .error (msg, calls) =>
    ⟨500, .obj [(kError, .str "Internal server error".data), (kDetails, .str msg)], calls⟩

/-- Lines 130 to 134 of the heuristic-first handler as a standalone
extraction: the language (declared tag, trimmed, with content detection
as fallback) and the trimmed code of the first fenced block. -/
def fencedExtractB (text : Str) : Option (Str × Str) :=
  match fencedSearch text with
  | some (_, langGroup, inner) =>
    let langTag := trimStr (match langGroup with | some l => l | none => [])
    some ((if langTag.isEmpty then detectLanguageFromCode inner else langTag), trimStr inner)
  | none => none

/-- The rejection condition of the model-first validator, as a predicate
on the value of the text field: everything except a string with
non-blank trim is rejected (a falsy or empty string is also blank). -/
def textRejected : JsVal → Bool
  | .str s => (trimStr s).isEmpty
  | _ => true

/-- Status projector over the outer Except (crash = 0). -/
def okStatus : Except Unit HResult → Nat
  | .ok r => r.status
  | .error _ => 0

/-- Body projector over the outer Except. -/
def okBody : Except Unit HResult → JsVal
  | .ok r => r.body
  | .error _ => .null

/-- Model-call-count projector over the outer Except. -/
def okCalls : Except Unit HResult → Nat
  | .ok r => r.modelCalls
  | .error _ => 0

/-- All four public keys present on a value. -/
def fourKeys (v : JsVal) : Bool :=
  hasKey v kCode && hasKey v kLanguage && hasKey v kText && hasKey v kImageUrl

/-- A successful splitSub is a decomposition of the input. -/
theorem splitSub_eq {pat : Str} : ∀ {s p q : Str},
    splitSub pat s = some (p, q) → s = p ++ pat ++ q := by
  intro s
  induction s with
  | nil =>
    intro p q h
    unfold splitSub at h
    by_cases hp : pat.isPrefixOf ([] : Str)
    · simp [hp] at h
      rcases List.isPrefixOf_iff_prefix.mp hp with ⟨t, ht⟩
      have hpat : pat = [] := by
        cases pat with
        | nil => rfl
        | cons a b => simp at ht
      simp [hpat, h.1, h.2]
    · simp [hp] at h
  | cons c rest ih =>
    intro p q h
    unfold splitSub at h
    by_cases hp : pat.isPrefixOf (c :: rest)
    · simp [hp] at h
      rcases List.isPrefixOf_iff_prefix.mp hp with ⟨t, ht⟩
      rw [h.1, ← h.2, ← ht, List.drop_left]
      simp
    · simp [hp] at h
      rcases h with ⟨p2, hrec, hp2⟩
      have hd := ih hrec
      rw [← hp2, hd]
      simp

/-- Before a successful splitSub, no earlier position starts the
pattern. -/
theorem splitSub_no_early {pat : Str} : ∀ {s p q : Str},
    splitSub pat s = some (p, q) → ∀ i < p.length, pat.isPrefixOf (s.drop i) = false := by
  intro s
  induction s with
  | nil =>
    intro p q h i hi
    unfold splitSub at h
    by_cases hp : pat.isPrefixOf ([] : Str)
    · simp [hp] at h
      rw [h.1] at hi
      simp at hi
    · simp [hp] at h
  | cons c rest ih =>
    intro p q h i hi
    unfold splitSub at h
    by_cases hp : pat.isPrefixOf (c :: rest)
    · simp [hp] at h
      rw [h.1] at hi
      simp at hi
    · simp [hp] at h
      rcases h with ⟨p2, hrec, hp2⟩
      cases i with
      | zero =>
        simp only [List.drop_zero]
        exact Bool.not_eq_true _ ▸ (by exact fun hc => hp hc)
      | succ j =>
        have hj : j < p2.length := by
          rw [← hp2] at hi
          simpa using hi
        simpa using ih hrec j hj

/-- A splitSub at a prefix occurrence. -/
theorem splitSub_here {pat s : Str} (h : pat.isPrefixOf s = true) :
    splitSub pat s = some ([], s.drop pat.length) := by
  cases s with
  | nil =>
    unfold splitSub
    simp [h]
  | cons c rest =>
    unfold splitSub
    simp [h]

/-- A splitSub succeeds at the first pattern occurrence when no earlier
position starts the pattern. -/
theorem splitSub_construct {pat : Str} : ∀ (a b : Str),
    (∀ i < a.length, pat.isPrefixOf ((a ++ (pat ++ b)).drop i) = false) →
    splitSub pat (a ++ (pat ++ b)) = some (a, b) := by
  intro a
  induction a with
  | nil =>
    intro b _
    have hp : pat.isPrefixOf (pat ++ b) = true :=
      List.isPrefixOf_iff_prefix.mpr (List.prefix_append pat b)
    rw [List.nil_append, splitSub_here hp, List.drop_left]
  | cons c a2 ih =>
    intro b h
    have h0 : pat.isPrefixOf (c :: (a2 ++ (pat ++ b))) = false := by
      have := h 0 (by simp)
      simpa using this
    show splitSub pat (c :: (a2 ++ (pat ++ b))) = some (c :: a2, b)
    unfold splitSub
    rw [h0]
    simp only [Bool.false_eq_true, if_false]
    have hrec := ih b (by
      intro i hi
      have := h (i + 1) (by simpa using Nat.succ_lt_succ hi)
      simpa using this)
    rw [hrec]
    rfl

/-- Characters kept by takeWhile satisfy the predicate; the first
character dropped by dropWhile does not. -/
theorem head_dropWhile_false {p : Char → Bool} :
    ∀ (l : Str) (c : Char) (t : Str), l.dropWhile p = c :: t → p c = false := by
  intro l
  induction l with
  | nil => intro c t h; simp at h
  | cons a l2 ih =>
    intro c t h
    by_cases hp : p a
    · rw [List.dropWhile_cons_of_pos hp] at h
      exact ih c t h
    · rw [List.dropWhile_cons_of_neg hp] at h
      cases h
      simpa using hp

/-- A takeWhile across an append whose left part satisfies the
predicate pointwise. -/
theorem takeWhile_append_all {p : Char → Bool} :
    ∀ (a b : Str), (∀ c ∈ a, p c = true) →
    List.takeWhile p (a ++ b) = a ++ List.takeWhile p b := by
  intro a
  induction a with
  | nil => intro b _; simp
  | cons c a2 ih =>
    intro b h
    have hc : p c = true := h c (by simp)
    rw [List.cons_append, List.takeWhile_cons_of_pos hc, ih b (fun x hx => h x (by simp [hx]))]
    rfl

/-- A dropWhile is idempotent. -/
theorem dropWhile_idem {p : Char → Bool} (l : Str) :
    (l.dropWhile p).dropWhile p = l.dropWhile p := by
  cases h : l.dropWhile p with
  | nil => simp
  | cons c t =>
    have hc := head_dropWhile_false l c t h
    rw [List.dropWhile_cons_of_neg (by simp [hc])]

/-- Trimming ignores an already-dropped whitespace prefix. -/
theorem trimStr_dropWhile (s : Str) : trimStr (s.dropWhile isWsChar) = trimStr s := by
  unfold trimStr
  rw [dropWhile_idem]

/-- The trim of a list holding a non-whitespace character is nonempty. -/
theorem trim_isEmpty_false {s : Str} {c : Char} (hc : c ∈ s) (hw : isWsChar c = false) :
    (trimStr s).isEmpty = false := by
  cases hE : (trimStr s).isEmpty with
  | false => rfl
  | true =>
    exfalso
    have hnil : trimStr s = [] := by
      cases hts : trimStr s with
      | nil => rfl
      | cons a t => rw [hts] at hE; simp at hE
    unfold trimStr at hnil
    have h1 : (s.dropWhile isWsChar).reverse.dropWhile isWsChar = [] := by
      have := congrArg List.reverse hnil
      simpa using this
    have hall2 : ∀ x ∈ (s.dropWhile isWsChar).reverse, isWsChar x := by
      rw [← List.dropWhile_eq_nil_iff]
      exact h1
    have hall : ∀ x ∈ s.dropWhile isWsChar, isWsChar x = true := by
      intro x hx
      exact hall2 x (by simpa using hx)
    have hsplit := List.takeWhile_append_dropWhile (p := isWsChar) (l := s)
    rw [← hsplit] at hc
    rcases List.mem_append.mp hc with h | h
    · exact absurd (List.mem_takeWhile_imp h) (by simp [hw])
    · exact absurd (hall _ h) (by simp [hw])

/-- Unfolding equation of lookupField on a cons. -/
theorem lookupField_cons (p : Str × JsVal) (rest : List (Str × JsVal)) (k : Str) :
    lookupField (p :: rest) k = if p.1 == k then some p.2 else lookupField rest k := rfl

/-- A lookupField hit is preserved by appending on the right. -/
theorem lookupField_append_some {a : List (Str × JsVal)} {k : Str} {v : JsVal}
    (h : lookupField a k = some v) (b : List (Str × JsVal)) :
    lookupField (a ++ b) k = some v := by
  induction a with
  | nil => simp [lookupField] at h
  | cons p rest ih =>
    rw [List.cons_append, lookupField_cons]
    rw [lookupField_cons] at h
    cases hp : (p.1 == k) with
    | true => rw [hp] at h; simpa [hp] using h
    | false =>
      rw [hp] at h
      simp only [Bool.false_eq_true, if_false] at h ⊢
      exact ih h

/-- A lookupField miss defers to the appended list. -/
theorem lookupField_append_none {a : List (Str × JsVal)} {k : Str}
    (h : lookupField a k = none) (b : List (Str × JsVal)) :
    lookupField (a ++ b) k = lookupField b k := by
  induction a with
  | nil => simp
  | cons p rest ih =>
    rw [List.cons_append, lookupField_cons]
    rw [lookupField_cons] at h
    cases hp : (p.1 == k) with
    | true => rw [hp] at h; simp at h
    | false =>
      rw [hp] at h
      simp only [Bool.false_eq_true, if_false] at h ⊢
      exact ih h

/-- A false any on the key test is a lookupField miss. -/
theorem lookupField_none_of_any_false {a : List (Str × JsVal)} {k : Str}
    (h : a.any (fun p => p.1 == k) = false) : lookupField a k = none := by
  induction a with
  | nil => rfl
  | cons p rest ih =>
    rw [List.any_cons] at h
    rw [lookupField_cons]
    cases hp : (p.1 == k) with
    | true => rw [hp] at h; simp at h
    | false =>
      simp only [Bool.false_eq_true, if_false]
      rw [hp] at h
      rw [Bool.false_or] at h
      exact ih h

/-- Overwriting map: the written key reads back. -/
theorem lookupField_overwrite_self {k : Str} {v : JsVal} :
    ∀ (fs : List (Str × JsVal)), fs.any (fun p => p.1 == k) = true →
    lookupField (fs.map (fun p => if p.1 == k then (k, v) else p)) k = some v := by
  intro fs
  induction fs with
  | nil => intro h; exact absurd h (by simp)
  | cons p rest ih =>
    intro h
    rw [List.map_cons]
    cases hp : (p.1 == k) with
    | true =>
      simp [hp, lookupField_cons, beq_self_eq_true]
    | false =>
      have h2 : rest.any (fun p => p.1 == k) = true := by
        rw [List.any_cons, hp] at h
        simpa using h
      simp only [hp, Bool.false_eq_true, if_false, lookupField_cons]
      exact ih h2

/-- Overwriting map: other keys are unchanged. -/
theorem lookupField_overwrite_ne {k k2 : Str} {v : JsVal} (hne : (k2 == k) = false) :
    ∀ (fs : List (Str × JsVal)),
    lookupField (fs.map (fun p => if p.1 == k then (k, v) else p)) k2 = lookupField fs k2 := by
  intro fs
  induction fs with
  | nil => rfl
  | cons p rest ih =>
    rw [List.map_cons]
    cases hp : (p.1 == k) with
    | true =>
      have hp1 : p.1 = k := eq_of_beq hp
      have hkk2 : (k == k2) = false := by
        rcases beq_eq_false_iff_ne.mp hne with h
        exact beq_eq_false_iff_ne.mpr (Ne.symm h)
      simp only [hp, if_true, lookupField_cons, hkk2, hp1, Bool.false_eq_true, if_false]
      exact ih
    | false =>
      simp only [hp, Bool.false_eq_true, if_false, lookupField_cons]
      cases hq : (p.1 == k2) with
      | true => simp [hq]
      | false =>
        simp only [hq, Bool.false_eq_true, if_false]
        exact ih

/-- The written key reads back after objInsert. -/
theorem lookupField_objInsert_self (fs : List (Str × JsVal)) (k : Str) (v : JsVal) :
    lookupField (objInsert fs k v) k = some v := by
  unfold objInsert
  cases ha : fs.any (fun p => p.1 == k) with
  | true =>
    simp only [ha, if_true]
    exact lookupField_overwrite_self fs ha
  | false =>
    simp only [ha, Bool.false_eq_true, if_false]
    rw [lookupField_append_none (lookupField_none_of_any_false ha)]
    rw [lookupField_cons]
    simp [beq_self_eq_true]

/-- Other keys are unchanged by objInsert. -/
theorem lookupField_objInsert_ne {k k2 : Str} (hne : (k2 == k) = false)
    (fs : List (Str × JsVal)) (v : JsVal) :
    lookupField (objInsert fs k v) k2 = lookupField fs k2 := by
  unfold objInsert
  cases ha : fs.any (fun p => p.1 == k) with
  | true =>
    simp only [ha, if_true]
    exact lookupField_overwrite_ne hne fs
  | false =>
    simp only [ha, Bool.false_eq_true, if_false]
    have hkk2 : (k == k2) = false := by
      rcases beq_eq_false_iff_ne.mp hne with h
      exact beq_eq_false_iff_ne.mpr (Ne.symm h)
    cases hl : lookupField fs k2 with
    | some w => rw [lookupField_append_some hl]
    | none =>
      rw [lookupField_append_none hl]
      rw [lookupField_cons]
      simp [hkk2, lookupField]

/-- A successful jsSet makes the written key read back and leaves other
keys unchanged. -/
theorem jsSet_fields {p : JsVal} {k : Str} {v p2 : JsVal} (h : jsSet p k v = .ok p2) :
    jsField p2 k = v ∧ ∀ k2, (k2 == k) = false → jsField p2 k2 = jsField p k2 := by
  cases p with
  | obj fs =>
    have hp2 : p2 = .obj (objInsert fs k v) := by
      simpa [jsSet] using h.symm
    subst hp2
    constructor
    · simp [jsField, lookupField_objInsert_self]
    · intro k2 hk2
      simp [jsField, lookupField_objInsert_ne hk2]
  | arr es ps =>
    have hp2 : p2 = .arr es (objInsert ps k v) := by
      simpa [jsSet] using h.symm
    subst hp2
    constructor
    · simp [jsField, lookupField_objInsert_self]
    · intro k2 hk2
      simp [jsField, lookupField_objInsert_ne hk2]
  | undefined => simp [jsSet] at h
  | null => simp [jsSet] at h
  | bool b => simp [jsSet] at h
  | num n => simp [jsSet] at h
  | str s => simp [jsSet] at h

/-- A successful jsSet on a non-nullish value yields a non-nullish value,
so later property reads on it cannot throw. -/
theorem jsSet_ok_get {p : JsVal} {k : Str} {v p2 : JsVal} (h : jsSet p k v = .ok p2) :
    ∀ k2, jsGet p2 k2 = .ok (jsField p2 k2) := by
  cases p with
  | obj fs =>
    have hp2 : p2 = .obj (objInsert fs k v) := by
      simpa [jsSet] using h.symm
    subst hp2
    intro k2
    simp [jsGet, jsField]
  | arr es ps =>
    have hp2 : p2 = .arr es (objInsert ps k v) := by
      simpa [jsSet] using h.symm
    subst hp2
    intro k2
    simp [jsGet, jsField]
  | undefined => simp [jsSet] at h
  | null => simp [jsSet] at h
  | bool b => simp [jsSet] at h
  | num n => simp [jsSet] at h
  | str s => simp [jsSet] at h

/-- A jsOrNull is never the empty string. -/
theorem jsOrNull_ne_emptyStr (v : JsVal) : jsOrNull v ≠ .str [] := by
  unfold jsOrNull
  cases ht : truthy v with
  | true =>
    simp only [if_true]
    intro he
    rw [he] at ht
    simp [truthy] at ht
  | false =>
    simp only [Bool.false_eq_true, if_false]
    intro he
    cases he

/-- A jsOrElse with a string default is never null. -/
theorem jsOrElse_str_ne_null (v : JsVal) (d : Str) : jsOrElse v (.str d) ≠ .null := by
  unfold jsOrElse
  cases ht : truthy v with
  | true =>
    simp only [if_true]
    intro he
    rw [he] at ht
    simp [truthy] at ht
  | false =>
    simp only [Bool.false_eq_true, if_false]
    intro he
    cases he

/-- A jsOrElse with a nonempty string default is never the empty
string. -/
theorem jsOrElse_str_ne_emptyStr (v : JsVal) (d : Str) (hd : d.isEmpty = false) :
    jsOrElse v (.str d) ≠ .str [] := by
  unfold jsOrElse
  cases ht : truthy v with
  | true =>
    simp only [if_true]
    intro he
    rw [he] at ht
    simp [truthy] at ht
  | false =>
    simp only [Bool.false_eq_true, if_false]
    intro he
    cases he
    simp at hd

/-- A successful fencedSearch means the input holds a triple backtick. -/
theorem fencedSearch_contains {s : Str} {m : Str × Option Str × Str}
    (h : fencedSearch s = some m) : containsTriple s = true := by
  induction s with
  | nil => simp [fencedSearch] at h
  | cons c rest ih =>
    unfold fencedSearch at h
    cases ht : tryFenceAt (c :: rest) with
    | some m2 =>
      unfold tryFenceAt at ht
      by_cases hp : tripleTick.isPrefixOf (c :: rest)
      · unfold containsTriple containsSub
        rw [splitSub_here hp]
        rfl
      · simp [hp] at ht
    | none =>
      rw [ht] at h
      have hrec := ih h
      unfold containsTriple containsSub at hrec ⊢
      unfold splitSub
      by_cases hp : tripleTick.isPrefixOf (c :: rest)
      · simp [hp]
      · simp [hp]
        exact hrec

/-- A triple backtick containment puts a backtick character in the
input. -/
theorem containsTriple_mem {s : Str} (h : containsTriple s = true) : '`' ∈ s := by
  unfold containsTriple containsSub at h
  cases hs : splitSub tripleTick s with
  | none => rw [hs] at h; simp at h
  | some pq =>
    rcases pq with ⟨p, q⟩
    have hd := splitSub_eq hs
    rw [hd]
    simp [tripleTick]

/-- Without an open angle bracket the balanced-pair search fails. -/
theorem htmlBalancedSearch_none {text : Str} (h : '<' ∉ text) :
    htmlBalancedSearch text = none := by
  induction text with
  | nil => rfl
  | cons c rest ih =>
    have hc : c ≠ '<' := fun he => h (by rw [← he]; exact List.mem_cons_self c rest)
    have hrest : '<' ∉ rest := fun hm => h (List.mem_cons_of_mem c hm)
    unfold htmlBalancedSearch
    have ht : tryHtmlAt (c :: rest) = none := by
      unfold tryHtmlAt
      split
      · next heq =>
        exfalso
        apply hc
        injection heq with h1 h2
      · rfl
    rw [ht]
    exact ih hrest

/-- Without an open angle bracket the first-index search fails. -/
theorem idxOf_lt_none {text : Str} (h : '<' ∉ text) : idxOf '<' text = none := by
  unfold idxOf
  rw [List.findIdx?_eq_none_iff]
  intro x hx
  cases hq : decide (x = '<') with
  | false => simp
  | true =>
    exfalso
    exact h (by rw [← of_decide_eq_true hq]; exact hx)

/-- Claim C5, counterexample: the input consisting of an open angle, a
space and a close angle contains no opening-tag pattern (no open angle
is followed by a word character, and the inline-HTML detector regex of
the source rejects it), yet extractHtmlSnippet returns the whole span
rather than null, through the first-open-to-last-close fallback. -/
theorem claim5_counterexample :
    htmlLikeTest "< >".data = false
  ∧ ("< >".data.zip "< >".data.tail).all
      (fun p => !(p.1 = '<' && isWordChar p.2)) = true
  ∧ extractHtmlSnippet "< >".data = some "< >".data := by
  refine ⟨rfl, rfl, rfl⟩

/-- Claim C5 (amended): for all input strings that contain no open angle
bracket at all, extractHtmlSnippet returns null; a string without an
opening-tag pattern can still yield a non-null result through the
first-open-to-last-close fallback. -/
theorem claim5_amended (text : Str) (h : '<' ∉ text) :
    extractHtmlSnippet text = none := by
  unfold extractHtmlSnippet
  rw [htmlBalancedSearch_none h, idxOf_lt_none h]

/-- Witness for the amended claim C5 at a concrete input. -/
theorem claim5_amended_witness :
    ('<' ∉ "hello world".data) ∧ extractHtmlSnippet "hello world".data = none :=
  ⟨by decide, claim5_amended "hello world".data (by decide)⟩

/-- Claim C6, counterexample: an input that contains the markdown image
link leads extractImageUrl to return an earlier bare image URL instead
of the linked one, so the universally quantified claim is false. -/
theorem claim6_counterexample :
    extractImageUrl "https://b.png ![a](https://x.png)".data = some "https://b.png".data
  ∧ extractImageUrl "https://b.png ![a](https://x.png)".data ≠ some "https://x.png".data := by
  refine ⟨rfl, by decide⟩

/-- Claim C6 (amended): on the exact input consisting of the markdown
image link, extractImageUrl returns the URL — via the bare-URL pattern,
because the markdown pattern as written requires the URL to follow the
close bracket immediately (no literal open parenthesis is matched).  The
markdown pattern is tried first (shown by an input only it accepts), and
a missing match of both patterns yields null. -/
theorem claim6_amended :
    extractImageUrl "![a](https://x.png)".data = some "https://x.png".data
  ∧ extractImageUrl "! ]https://a.txt more".data = some "https://a.txt".data
  ∧ extractImageUrl "draw a cat".data = none := by
  refine ⟨rfl, rfl, rfl⟩

/-- Claim C2, counterexample: a POST to imagine with a whitespace-only
(blank) prompt is not rejected with 400 — the validator only checks
falsiness and the string type — so the model is invoked and, on upstream
success, the handler answers 200. -/
theorem claim2_counterexample :
    okStatus (handlerImagine postMethod (.obj [(kPrompt, .str "   ".data)])
      (.ok (.str "QUJD".data))) = 200
  ∧ okCalls (handlerImagine postMethod (.obj [(kPrompt, .str "   ".data)])
      (.ok (.str "QUJD".data))) = 1 := by
  refine ⟨rfl, rfl⟩

/-- Claim C2 (amended): for the model-first bot handler, a POST whose
text field is missing, blank or not a string gets 400 with success false
and the message Text (non-empty string) is required, without invoking
the model; for imagine, a POST whose prompt field is missing, empty or
not a string gets 400 with success false and the message Prompt is
required, without invoking the model — but a whitespace-only non-empty
prompt is accepted there and the model is invoked. -/
theorem claim2_amended :
    (∀ (fields : List (Str × JsVal)) (model : Except Str Str),
      textRejected ((lookupField fields ktext).getD .undefined) = true →
      handlerA postMethod (.obj fields) model = .ok ⟨400, err400Text, 0⟩)
  ∧ (∀ (fields : List (Str × JsVal)) (model : Except Str JsVal),
      (!truthy ((lookupField fields kPrompt).getD .undefined)
        || !isStringV ((lookupField fields kPrompt).getD .undefined)) = true →
      handlerImagine postMethod (.obj fields) model =
        .ok ⟨400, .obj [(kSuccess, .bool false),
              (kError, .str "Prompt is required".data)], 0⟩) := by
  constructor
  · intro fields model h
    unfold handlerA
    rw [if_neg (fun hh => hh rfl)]
    show (match (lookupField fields ktext).getD .undefined with
          | .str s =>
            if (trimStr s).isEmpty then Except.ok (⟨400, err400Text, 0⟩ : HResult)
            else
              match model with
              | .error msg => .ok ⟨500, err500 msg, 1⟩
              | .ok output =>
                match fenceImageFill s (parsedOfOutput output) with
                | .error msg => .ok ⟨500, err500 msg, 1⟩
                | .ok p =>
                  match emitModelFirst placeholderText p with
                  | .error msg => .ok ⟨500, err500 msg, 1⟩
                  | .ok resp =>
                    .ok ⟨200, .obj [(kSuccess, .bool true), (kResponse, resp)], 1⟩
          | _ => .ok ⟨400, err400Text, 0⟩) = .ok ⟨400, err400Text, 0⟩
    cases ht : (lookupField fields ktext).getD .undefined with
    | str s =>
      rw [ht] at h
      simp only [textRejected] at h
      simp only [h, if_true]
    | undefined => rfl
    | null => rfl
    | bool b => rfl
    | num n => rfl
    | arr es ps => rfl
    | obj fs => rfl
  · intro fields model h
    unfold handlerImagine
    rw [if_neg (fun hh => hh rfl)]
    show (if (!truthy ((lookupField fields kPrompt).getD .undefined)
          || !isStringV ((lookupField fields kPrompt).getD .undefined)) = true then _ else _) = _
    rw [if_pos h]

/-- Witness for the amended claim C2: the empty body is rejected by both
handlers without a model call. -/
theorem claim2_amended_witness :
    handlerA postMethod (.obj []) (.ok "x".data) = .ok ⟨400, err400Text, 0⟩
  ∧ handlerImagine postMethod (.obj []) (.ok (.str "x".data)) =
      .ok ⟨400, .obj [(kSuccess, .bool false),
            (kError, .str "Prompt is required".data)], 0⟩ :=
  ⟨claim2_amended.1 [] (.ok "x".data) rfl, claim2_amended.2 [] (.ok (.str "x".data)) rfl⟩

/-- Claim C8, counterexample: when the upstream fetch of the
heuristic-first handler throws, the handler does answer 500, but the
body has no success flag at all and its error text is the lower-case
variant, so the claimed body shape is wrong for this cited handler. -/
theorem claim8_counterexample :
    (handlerB postMethod (.str "hello".data) "u".data "k".data (.error "boom".data)).status = 500
  ∧ hasKey (handlerB postMethod (.str "hello".data) "u".data "k".data
      (.error "boom".data)).body kSuccess = false
  ∧ jsField (handlerB postMethod (.str "hello".data) "u".data "k".data
      (.error "boom".data)).body kError = .str "Internal server error".data := by
  refine ⟨rfl, rfl, rfl⟩

/-- Claim C8 (amended): when the model call throws, a valid request to
the model-first handler gets 500 with success false, the message
Internal Server Error and the thrown message as details; a valid request
to the heuristic-first handler that reaches the upstream call gets 500
with the lower-case message Internal server error and the stringified
error as details, without any success flag.  In both, the model was
invoked exactly once: the upstream failure is terminal, with no
retry. -/
theorem claim8_amended :
    (∀ (s msg : Str), (trimStr s).isEmpty = false →
      handlerA postMethod (.obj [(ktext, .str s)]) (.error msg) = .ok ⟨500, err500 msg, 1⟩)
  ∧ (∀ (s msg envUrl envKey : Str),
      fencedSearch s = none → htmlLikeTest s = false →
      (trimStr s).isEmpty = false → envUrl.isEmpty = false → envKey.isEmpty = false →
      handlerB postMethod (.str s) envUrl envKey (.error msg) =
        ⟨500, .obj [(kError, .str "Internal server error".data),
              (kDetails, .str msg)], 1⟩) := by
  constructor
  · intro s msg h
    unfold handlerA
    rw [if_neg (fun hh => hh rfl)]
    show (match jsGet (JsVal.obj [(ktext, .str s)]) ktext with
          | .error _ => Except.error ()
          | .ok t =>
            match t with
            | .str s =>
              if (trimStr s).isEmpty then Except.ok (⟨400, err400Text, 0⟩ : HResult)
              else
                match (Except.error msg : Except Str Str) with
                | .error msg => .ok ⟨500, err500 msg, 1⟩
                | .ok output =>
                  match fenceImageFill s (parsedOfOutput output) with
                  | .error msg => .ok ⟨500, err500 msg, 1⟩
                  | .ok p =>
                    match emitModelFirst placeholderText p with
                    | .error msg => .ok ⟨500, err500 msg, 1⟩
                    | .ok resp =>
                      .ok ⟨200, .obj [(kSuccess, .bool true), (kResponse, resp)], 1⟩
            | _ => .ok ⟨400, err400Text, 0⟩) = .ok ⟨500, err500 msg, 1⟩
    simp only [jsGet, lookupField_cons, beq_self_eq_true, if_true, Option.getD_some, h,
      Bool.false_eq_true, if_false]
  · intro s msg envUrl envKey hf hh htr hu hk
    have hs : truthy (.str s) = true := by
      cases s with
      | nil => simp [trimStr] at htr
      | cons c rest => simp [truthy]
    unfold handlerB handlerBTry
    rw [if_neg (fun hx => hx rfl)]
    show (match (let inputText := inputTextOf (.str s);
          if !truthy inputText then Except.ok (⟨400, errB400, 0⟩ : HResult)
          else
            match inputText with
            | .str s =>
              if (trimStr s).isEmpty then .ok ⟨400, errB400, 0⟩
              else handlerBMain s envUrl envKey (.error msg)
            | _ => .error (tyErr, 0)) with
        | .ok r => r
        | .error (m, calls) =>
          (⟨500, .obj [(kError, .str "Internal server error".data),
              (kDetails, .str m)], calls⟩ : HResult)) = _
    simp only [inputTextOf, hs, Bool.not_true, Bool.false_eq_true, if_false, htr]
    unfold handlerBMain
    rw [hf, hh]
    simp only [Bool.false_eq_true, if_false, hu, hk]
    rfl

/-- The emitted model-first response is always the four-key object of
or-null fields with the or-default Text. -/
theorem emitModelFirst_shape {d : Str} {p resp : JsVal}
    (h : emitModelFirst d p = .ok resp) :
    ∃ cv lv tv iv, resp = .obj [(kCode, jsOrNull cv), (kLanguage, jsOrNull lv),
      (kText, jsOrElse tv (.str d)), (kImageUrl, jsOrNull iv)] := by
  unfold emitModelFirst at h
  cases h1 : jsGet p kCode with
  | error e => rw [h1] at h; simp at h
  | ok cv =>
    rw [h1] at h
    cases h2 : jsGet p kLanguage with
    | error e => rw [h2] at h; simp at h
    | ok lv =>
      rw [h2] at h
      cases h3 : jsGet p kText with
      | error e => rw [h3] at h; simp at h
      | ok tv =>
        rw [h3] at h
        cases h4 : jsGet p kImageUrl with
        | error e => rw [h4] at h; simp at h
        | ok iv =>
          rw [h4] at h
          simp only [Except.ok.injEq] at h
          exact ⟨cv, lv, tv, iv, h.symm⟩

/-- Field reads on the emitted four-key object. -/
theorem jsField_emit4 (a b c d : JsVal) :
    jsField (.obj [(kCode, a), (kLanguage, b), (kText, c), (kImageUrl, d)]) kCode = a
  ∧ jsField (.obj [(kCode, a), (kLanguage, b), (kText, c), (kImageUrl, d)]) kLanguage = b
  ∧ jsField (.obj [(kCode, a), (kLanguage, b), (kText, c), (kImageUrl, d)]) kText = c
  ∧ jsField (.obj [(kCode, a), (kLanguage, b), (kText, c), (kImageUrl, d)]) kImageUrl = d :=
  ⟨rfl, rfl, rfl, rfl⟩

/-- All four keys are present on the emitted four-key object. -/
theorem fourKeys_emit4 (a b c d : JsVal) :
    fourKeys (.obj [(kCode, a), (kLanguage, b), (kText, c), (kImageUrl, d)]) = true := rfl

/-- Every 200 answer of the model-first bot handler wraps an emitted
four-field response under the response key, with exactly one model
call. -/
theorem handlerA_200 {method : Str} {reqBody : JsVal} {model : Except Str Str} {r : HResult}
    (h : handlerA method reqBody model = .ok r) (h200 : r.status = 200) :
    ∃ p resp, emitModelFirst placeholderText p = .ok resp ∧
      r = ⟨200, .obj [(kSuccess, .bool true), (kResponse, resp)], 1⟩ := by
  unfold handlerA at h
  split at h
  · cases h; simp at h200
  · split at h
    · simp at h
    · split at h
      · split at h
        · cases h; simp at h200
        · split at h
          · cases h; simp at h200
          · split at h
            · cases h; simp at h200
            · split at h
              · cases h; simp at h200
              · cases h
                rename_i x1 pfill hfill x2 presp hemit
                exact ⟨pfill, presp, hemit, rfl⟩
      · cases h; simp at h200

/-- Every 200 answer of the unnamed model-first handler wraps an emitted
four-field response whose Text default is a validated (non-blank) input
text, with exactly one model call. -/
theorem handlerC_200 {method : Str} {reqBody : JsVal} {model : Except Str Str} {r : HResult}
    (h : handlerC method reqBody model = .ok r) (h200 : r.status = 200) :
    ∃ s p resp, (trimStr s).isEmpty = false ∧ emitModelFirst s p = .ok resp ∧
      r = ⟨200, .obj [(kSuccess, .bool true), (kResponse, resp)], 1⟩ := by
  unfold handlerC at h
  split at h
  · cases h; simp at h200
  · split at h
    · simp at h
    · split at h
      · split at h
        · cases h; simp at h200
        · split at h
          · cases h; simp at h200
          · split at h
            · cases h; simp at h200
            · split at h
              · cases h; simp at h200
              · cases h
                rename_i s hjs htrim model2 output x1 pfill hfill x2 presp hemit
                exact ⟨s, pfill, presp, by simpa using htrim, hemit, rfl⟩
      · cases h; simp at h200

/-- Reading the response key of the success wrapper. -/
theorem jsField_wrap (v : JsVal) :
    jsField (.obj [(kSuccess, .bool true), (kResponse, v)]) kResponse = v := rfl

/-- A string whose trim is nonempty is nonempty. -/
theorem isEmpty_false_of_trim {s : Str} (h : (trimStr s).isEmpty = false) :
    s.isEmpty = false := by
  cases s with
  | nil => simp [trimStr] at h
  | cons c t => rfl

/-- Claim C9: in the 200 responses of the two model-first handlers, the
fields Code, Language and ImageUrl are never the empty string (an empty
or otherwise falsy parsed value is emitted as null through the or-null
coercion), and Text is never null and never the empty string; when the
parsed output has no usable Text (here: an empty model output), Text is
the placeholder in the api-bot.js variant and the original input in the
unnamed variant. -/
theorem claim9 :
    (∀ (method : Str) (reqBody : JsVal) (model : Except Str Str),
      okStatus (handlerA method reqBody model) = 200 →
      jsField (jsField (okBody (handlerA method reqBody model)) kResponse) kCode ≠ .str []
      ∧ jsField (jsField (okBody (handlerA method reqBody model)) kResponse) kLanguage ≠ .str []
      ∧ jsField (jsField (okBody (handlerA method reqBody model)) kResponse) kImageUrl ≠ .str []
      ∧ jsField (jsField (okBody (handlerA method reqBody model)) kResponse) kText ≠ .null
      ∧ jsField (jsField (okBody (handlerA method reqBody model)) kResponse) kText ≠ .str [])
  ∧ (∀ (method : Str) (reqBody : JsVal) (model : Except Str Str),
      okStatus (handlerC method reqBody model) = 200 →
      jsField (jsField (okBody (handlerC method reqBody model)) kResponse) kCode ≠ .str []
      ∧ jsField (jsField (okBody (handlerC method reqBody model)) kResponse) kLanguage ≠ .str []
      ∧ jsField (jsField (okBody (handlerC method reqBody model)) kResponse) kImageUrl ≠ .str []
      ∧ jsField (jsField (okBody (handlerC method reqBody model)) kResponse) kText ≠ .null
      ∧ jsField (jsField (okBody (handlerC method reqBody model)) kResponse) kText ≠ .str [])
  ∧ jsField (jsField (okBody (handlerA postMethod
      (.obj [(ktext, .str "draw a cat".data)]) (.ok []))) kResponse) kText
      = .str placeholderText
  ∧ jsField (jsField (okBody (handlerC postMethod
      (.obj [(ktext, .str "draw a cat".data)]) (.ok []))) kResponse) kText
      = .str "draw a cat".data := by
  refine ⟨?_, ?_, rfl, rfl⟩
  · intro method reqBody model h200
    cases hE : handlerA method reqBody model with
    | error e => rw [hE] at h200; simp [okStatus] at h200
    | ok r =>
      rw [hE] at h200
      simp only [okStatus] at h200
      obtain ⟨p, resp, hemit, hr⟩ := handlerA_200 hE h200
      obtain ⟨cv, lv, tv, iv, hresp⟩ := emitModelFirst_shape hemit
      subst hr
      simp only [okBody]
      rw [jsField_wrap, hresp]
      refine ⟨?_, ?_, ?_, ?_, ?_⟩
      · rw [(jsField_emit4 _ _ _ _).1]
        exact jsOrNull_ne_emptyStr cv
      · rw [(jsField_emit4 _ _ _ _).2.1]
        exact jsOrNull_ne_emptyStr lv
      · rw [(jsField_emit4 _ _ _ _).2.2.2]
        exact jsOrNull_ne_emptyStr iv
      · rw [(jsField_emit4 _ _ _ _).2.2.1]
        exact jsOrElse_str_ne_null tv placeholderText
      · rw [(jsField_emit4 _ _ _ _).2.2.1]
        exact jsOrElse_str_ne_emptyStr tv placeholderText (by decide)
  · intro method reqBody model h200
    cases hE : handlerC method reqBody model with
    | error e => rw [hE] at h200; simp [okStatus] at h200
    | ok r =>
      rw [hE] at h200
      simp only [okStatus] at h200
      obtain ⟨s, p, resp, hts, hemit, hr⟩ := handlerC_200 hE h200
      obtain ⟨cv, lv, tv, iv, hresp⟩ := emitModelFirst_shape hemit
      subst hr
      simp only [okBody]
      rw [jsField_wrap, hresp]
      refine ⟨?_, ?_, ?_, ?_, ?_⟩
      · rw [(jsField_emit4 _ _ _ _).1]
        exact jsOrNull_ne_emptyStr cv
      · rw [(jsField_emit4 _ _ _ _).2.1]
        exact jsOrNull_ne_emptyStr lv
      · rw [(jsField_emit4 _ _ _ _).2.2.2]
        exact jsOrNull_ne_emptyStr iv
      · rw [(jsField_emit4 _ _ _ _).2.2.1]
        exact jsOrElse_str_ne_null tv s
      · rw [(jsField_emit4 _ _ _ _).2.2.1]
        exact jsOrElse_str_ne_emptyStr tv s (isEmpty_false_of_trim hts)

/-- Witness for claim C9 at a concrete request reaching 200. -/
theorem claim9_witness :
    okStatus (handlerA postMethod (.obj [(ktext, .str "hi".data)]) (.ok [])) = 200
  ∧ jsField (jsField (okBody (handlerA postMethod
      (.obj [(ktext, .str "hi".data)]) (.ok []))) kResponse) kText ≠ .null :=
  ⟨rfl, (claim9.1 postMethod (.obj [(ktext, .str "hi".data)]) (.ok []) rfl).2.2.2.1⟩

/-- Every success of the model path of the heuristic-first handler emits
all four public keys. -/
theorem bModelPath_keys {s : Str} {result : JsVal} {r : HResult}
    (h : bModelPath s result = .ok r) : fourKeys r.body = true := by
  unfold bModelPath at h
  try dsimp only [] at h
  repeat' split at h
  all_goals
    cases h
    all_goals rfl

/-- Every 200 of the heuristic-first main body emits all four public
keys. -/
theorem handlerBMain_keys {s envUrl envKey : Str} {fo : Except Str FetchResp} {r : HResult}
    (h : handlerBMain s envUrl envKey fo = .ok r) (h200 : r.status = 200) :
    fourKeys r.body = true := by
  unfold handlerBMain at h
  try dsimp only [] at h
  repeat' split at h
  all_goals first
    | exact bModelPath_keys h
    | (cases h <;> first
         | rfl
         | simp at h200)

/-- Every 200 of the heuristic-first try block emits all four public
keys. -/
theorem handlerBTry_keys {method : Str} {reqBody : JsVal} {envUrl envKey : Str}
    {fo : Except Str FetchResp} {r : HResult}
    (h : handlerBTry method reqBody envUrl envKey fo = .ok r) (h200 : r.status = 200) :
    fourKeys r.body = true := by
  unfold handlerBTry at h
  try dsimp only [] at h
  repeat' split at h
  all_goals first
    | exact handlerBMain_keys h h200
    | (cases h <;> first
         | rfl
         | simp at h200)

/-- Claim C1 (amended): every 200 success response of the three
extraction handlers carries all four keys Code, Language, Text and
ImageUrl (each possibly null); the value of a key is not always a string
or null, because a non-string JSON value supplied by the model output is
passed through unchanged. -/
theorem claim1_amended :
    (∀ (method : Str) (reqBody : JsVal) (model : Except Str Str),
      okStatus (handlerA method reqBody model) = 200 →
      ∃ resp, jsGet (okBody (handlerA method reqBody model)) kResponse = .ok resp
        ∧ fourKeys resp = true)
  ∧ (∀ (method : Str) (reqBody : JsVal) (model : Except Str Str),
      okStatus (handlerC method reqBody model) = 200 →
      ∃ resp, jsGet (okBody (handlerC method reqBody model)) kResponse = .ok resp
        ∧ fourKeys resp = true)
  ∧ (∀ (method : Str) (reqBody : JsVal) (envUrl envKey : Str) (fo : Except Str FetchResp),
      (handlerB method reqBody envUrl envKey fo).status = 200 →
      fourKeys (handlerB method reqBody envUrl envKey fo).body = true) := by
  refine ⟨?_, ?_, ?_⟩
  · intro method reqBody model h200
    cases hE : handlerA method reqBody model with
    | error e => rw [hE] at h200; simp [okStatus] at h200
    | ok r =>
      rw [hE] at h200
      simp only [okStatus] at h200
      obtain ⟨p, resp, hemit, hr⟩ := handlerA_200 hE h200
      obtain ⟨cv, lv, tv, iv, hresp⟩ := emitModelFirst_shape hemit
      subst hr
      refine ⟨resp, rfl, ?_⟩
      rw [hresp]
      exact fourKeys_emit4 _ _ _ _
  · intro method reqBody model h200
    cases hE : handlerC method reqBody model with
    | error e => rw [hE] at h200; simp [okStatus] at h200
    | ok r =>
      rw [hE] at h200
      simp only [okStatus] at h200
      obtain ⟨s, p, resp, hts, hemit, hr⟩ := handlerC_200 hE h200
      obtain ⟨cv, lv, tv, iv, hresp⟩ := emitModelFirst_shape hemit
      subst hr
      refine ⟨resp, rfl, ?_⟩
      rw [hresp]
      exact fourKeys_emit4 _ _ _ _
  · intro method reqBody envUrl envKey fo h200
    cases hT : handlerBTry method reqBody envUrl envKey fo with
    | ok r =>
      have hB : handlerB method reqBody envUrl envKey fo = r := by
        unfold handlerB
        rw [hT]
      rw [hB] at h200 ⊢
      exact handlerBTry_keys hT h200
    | error ec =>
      rcases ec with ⟨msg, calls⟩
      have hB : handlerB method reqBody envUrl envKey fo =
          ⟨500, .obj [(kError, .str "Internal server error".data),
            (kDetails, .str msg)], calls⟩ := by
        unfold handlerB
        rw [hT]
      rw [hB] at h200
      simp at h200

/-- Witness for the amended claim C1 at a concrete 200 request. -/
theorem claim1_amended_witness :
    okStatus (handlerA postMethod (.obj [(ktext, .str "hi".data)]) (.ok [])) = 200
  ∧ ∃ resp, jsGet (okBody (handlerA postMethod
      (.obj [(ktext, .str "hi".data)]) (.ok []))) kResponse = .ok resp
      ∧ fourKeys resp = true :=
  ⟨rfl, claim1_amended.1 postMethod (.obj [(ktext, .str "hi".data)]) (.ok []) rfl⟩

/-- Claim C1, counterexample: a model output whose JSON carries a number
in the Code field reaches the 200 response unchanged, so the emitted
Code value is neither a string nor null. -/
theorem claim1_counterexample :
    okStatus (handlerA postMethod (.obj [(ktext, .str "hi".data)])
      (.ok "\x7b\"Code\":5\x7d".data)) = 200
  ∧ jsField (jsField (okBody (handlerA postMethod (.obj [(ktext, .str "hi".data)])
      (.ok "\x7b\"Code\":5\x7d".data))) kResponse) kCode = .num ['5']
  ∧ isStringV (jsField (jsField (okBody (handlerA postMethod
      (.obj [(ktext, .str "hi".data)])
      (.ok "\x7b\"Code\":5\x7d".data))) kResponse) kCode) = false
  ∧ isNullV (jsField (jsField (okBody (handlerA postMethod
      (.obj [(ktext, .str "hi".data)])
      (.ok "\x7b\"Code\":5\x7d".data))) kResponse) kCode) = false := by
  refine ⟨rfl, rfl, rfl, rfl⟩

/-- A truthy value passes through the or-null coercion. -/
theorem jsOrNull_truthy {v : JsVal} (h : truthy v = true) : jsOrNull v = v := by
  unfold jsOrNull
  rw [h]
  rfl

/-- A truthy value passes through the or-default coercion. -/
theorem jsOrElse_truthy {v d : JsVal} (h : truthy v = true) : jsOrElse v d = v := by
  unfold jsOrElse
  rw [h]
  rfl


/-- Claim C7: if the model output is exactly the canonical JSON object
with all four fields populated by nonempty strings, both model-first
handlers return those four field values unchanged in the 200 success
response (round trip through the Response Normalizer). -/
theorem claim7 :
    ∀ (s output c l t i : Str),
      (trimStr s).isEmpty = false →
      c.isEmpty = false → l.isEmpty = false → t.isEmpty = false → i.isEmpty = false →
      jsonParse output = some (.obj [(kCode, .str c), (kLanguage, .str l),
        (kText, .str t), (kImageUrl, .str i)]) →
      handlerA postMethod (.obj [(ktext, .str s)]) (.ok output) =
        .ok ⟨200, .obj [(kSuccess, .bool true), (kResponse,
          .obj [(kCode, .str c), (kLanguage, .str l),
                (kText, .str t), (kImageUrl, .str i)])], 1⟩
      ∧ handlerC postMethod (.obj [(ktext, .str s)]) (.ok output) =
        .ok ⟨200, .obj [(kSuccess, .bool true), (kResponse,
          .obj [(kCode, .str c), (kLanguage, .str l),
                (kText, .str t), (kImageUrl, .str i)])], 1⟩ := by
  intro s output c l t i hs hc hl ht hi hp
  cases c with
  | nil => simp at hc
  | cons c0 cs =>
  cases l with
  | nil => simp at hl
  | cons l0 ls =>
  cases t with
  | nil => simp at ht
  | cons t0 ts =>
  cases i with
  | nil => simp at hi
  | cons i0 is2 =>
  have hrw : parsedOfOutput output = JsVal.obj [(kCode, .str (c0 :: cs)),
      (kLanguage, .str (l0 :: ls)), (kText, .str (t0 :: ts)),
      (kImageUrl, .str (i0 :: is2))] := by
    unfold parsedOfOutput
    rw [hp]
  constructor
  · simp only [handlerA, hrw, jsGet, lookupField_cons, beq_self_eq_true, if_true,
      Option.getD_some, hs, Bool.false_eq_true, if_false]
    rfl
  · simp only [handlerC, hrw, jsGet, lookupField_cons, beq_self_eq_true, if_true,
      Option.getD_some, hs, Bool.false_eq_true, if_false]
    rfl

/-- Witness for claim C7 at concrete canonical model output. -/
theorem claim7_witness :
    handlerA postMethod (.obj [(ktext, .str "hi".data)])
      (.ok "\x7b\"Code\":\"x\",\"Language\":\"js\",\"Text\":\"t\",\"ImageUrl\":\"u\"\x7d".data) =
      .ok ⟨200, .obj [(kSuccess, .bool true), (kResponse,
        .obj [(kCode, .str "x".data), (kLanguage, .str "js".data),
              (kText, .str "t".data), (kImageUrl, .str "u".data)])], 1⟩ :=
  (claim7 "hi".data
    "\x7b\"Code\":\"x\",\"Language\":\"js\",\"Text\":\"t\",\"ImageUrl\":\"u\"\x7d".data
    "x".data "js".data "t".data "u".data
    (by decide) (by decide) (by decide) (by decide) (by decide) (by rfl)).1

/-- The filled Language value is never the empty string. -/
theorem langGroupOrUnknown_ne_empty (lang : Option Str) :
    (langGroupOrUnknown lang).isEmpty = false := by
  cases lang with
  | none => rfl
  | some l =>
    show List.isEmpty (if List.isEmpty l = true then "unknown".data else l) = false
    cases hl : l.isEmpty with
    | true => rfl
    | false =>
      show List.isEmpty l = false
      exact hl

/-- When the parsed object has no Code binding and the input holds a
fenced block, the fallback blocks produce an object whose Code is the
wrapped trimmed inner group and whose Language is the language group or
unknown. -/
theorem fenceImageFill_fills (text : Str) (fields : List (Str × JsVal))
    (full : Str) (lang : Option Str) (inner : Str)
    (hnone : lookupField fields kCode = none)
    (hfence : fencedSearch text = some (full, lang, inner)) :
    ∃ pf : List (Str × JsVal),
      fenceImageFill text (.obj fields) = .ok (.obj pf)
      ∧ lookupField pf kCode = some (.str (wrapFallbackCode inner))
      ∧ lookupField pf kLanguage = some (.str (langGroupOrUnknown lang)) := by
  have hctr : containsTriple text = true := fencedSearch_contains hfence
  simp only [fenceImageFill, jsGet, hnone, Option.getD_none, truthy, Bool.not_false,
    Bool.true_and, hctr, if_true, hfence, jsSet]
  split
  · split
    · refine ⟨_, rfl, ?_, ?_⟩
      · rw [lookupField_objInsert_ne (by decide), lookupField_objInsert_ne (by decide),
          lookupField_objInsert_self]
      · rw [lookupField_objInsert_ne (by decide), lookupField_objInsert_self]
    · refine ⟨_, rfl, ?_, ?_⟩
      · rw [lookupField_objInsert_ne (by decide), lookupField_objInsert_self]
      · rw [lookupField_objInsert_self]
  · refine ⟨_, rfl, ?_, ?_⟩
    · rw [lookupField_objInsert_ne (by decide), lookupField_objInsert_self]
    · rw [lookupField_objInsert_self]

/-- Claim C3: in both model-first variants, when the parsed model output
is an object with no Code field and the original input contains a closed
fenced code block, the normalizer fills the emitted Code and Language
from the first fenced block of the original input (the wrapped trimmed
inner group and the declared language group or unknown), not from the
model output. -/
theorem claim3 :
    ∀ (s output : Str) (fields : List (Str × JsVal)) (full : Str)
      (lang : Option Str) (inner : Str),
      (trimStr s).isEmpty = false →
      parsedOfOutput output = .obj fields →
      lookupField fields kCode = none →
      fencedSearch s = some (full, lang, inner) →
      (∃ resp, handlerA postMethod (.obj [(ktext, .str s)]) (.ok output) =
          .ok ⟨200, .obj [(kSuccess, .bool true), (kResponse, resp)], 1⟩
        ∧ jsField resp kCode = .str (wrapFallbackCode inner)
        ∧ jsField resp kLanguage = .str (langGroupOrUnknown lang))
      ∧ (∃ resp, handlerC postMethod (.obj [(ktext, .str s)]) (.ok output) =
          .ok ⟨200, .obj [(kSuccess, .bool true), (kResponse, resp)], 1⟩
        ∧ jsField resp kCode = .str (wrapFallbackCode inner)
        ∧ jsField resp kLanguage = .str (langGroupOrUnknown lang)) := by
  intro s output fields full lang inner hs hpar hnone hfence
  obtain ⟨pf, hfill, hpfC, hpfL⟩ := fenceImageFill_fills s fields full lang inner hnone hfence
  have hemitA : emitModelFirst placeholderText (.obj pf) =
      .ok (.obj [(kCode, .str (wrapFallbackCode inner)),
        (kLanguage, .str (langGroupOrUnknown lang)),
        (kText, jsOrElse ((lookupField pf kText).getD .undefined) (.str placeholderText)),
        (kImageUrl, jsOrNull ((lookupField pf kImageUrl).getD .undefined))]) := by
    have h0 : emitModelFirst placeholderText (.obj pf) =
        .ok (.obj [(kCode, jsOrNull ((lookupField pf kCode).getD .undefined)),
          (kLanguage, jsOrNull ((lookupField pf kLanguage).getD .undefined)),
          (kText, jsOrElse ((lookupField pf kText).getD .undefined) (.str placeholderText)),
          (kImageUrl, jsOrNull ((lookupField pf kImageUrl).getD .undefined))]) := rfl
    rw [h0, hpfC, hpfL, Option.getD_some, Option.getD_some,
      jsOrNull_truthy (by rfl),
      jsOrNull_truthy (by simp [truthy, langGroupOrUnknown_ne_empty])]
  have hemitC : emitModelFirst s (.obj pf) =
      .ok (.obj [(kCode, .str (wrapFallbackCode inner)),
        (kLanguage, .str (langGroupOrUnknown lang)),
        (kText, jsOrElse ((lookupField pf kText).getD .undefined) (.str s)),
        (kImageUrl, jsOrNull ((lookupField pf kImageUrl).getD .undefined))]) := by
    have h0 : emitModelFirst s (.obj pf) =
        .ok (.obj [(kCode, jsOrNull ((lookupField pf kCode).getD .undefined)),
          (kLanguage, jsOrNull ((lookupField pf kLanguage).getD .undefined)),
          (kText, jsOrElse ((lookupField pf kText).getD .undefined) (.str s)),
          (kImageUrl, jsOrNull ((lookupField pf kImageUrl).getD .undefined))]) := rfl
    rw [h0, hpfC, hpfL, Option.getD_some, Option.getD_some,
      jsOrNull_truthy (by rfl),
      jsOrNull_truthy (by simp [truthy, langGroupOrUnknown_ne_empty])]
  constructor
  · refine ⟨JsVal.obj [(kCode, .str (wrapFallbackCode inner)),
        (kLanguage, .str (langGroupOrUnknown lang)),
        (kText, jsOrElse ((lookupField pf kText).getD .undefined) (.str placeholderText)),
        (kImageUrl, jsOrNull ((lookupField pf kImageUrl).getD .undefined))], ?_, rfl, rfl⟩
    simp only [handlerA, hpar, jsGet, lookupField_cons, beq_self_eq_true, if_true,
      Option.getD_some, hs, Bool.false_eq_true, if_false, hfill, hemitA]
    rw [if_neg (fun hh => hh rfl)]
  · refine ⟨JsVal.obj [(kCode, .str (wrapFallbackCode inner)),
        (kLanguage, .str (langGroupOrUnknown lang)),
        (kText, jsOrElse ((lookupField pf kText).getD .undefined) (.str s)),
        (kImageUrl, jsOrNull ((lookupField pf kImageUrl).getD .undefined))], ?_, rfl, rfl⟩
    simp only [handlerC, hpar, jsGet, lookupField_cons, beq_self_eq_true, if_true,
      Option.getD_some, hs, Bool.false_eq_true, if_false, hfill, hemitC]
    rw [if_neg (fun hh => hh rfl)]

/-- Witness for claim C3 at a concrete input and an unparseable (empty)
model output. -/
theorem claim3_witness :
    (trimStr "see ```py\nx=1\n``` ok".data).isEmpty = false
  ∧ ∃ resp, handlerA postMethod
      (.obj [(ktext, .str "see ```py\nx=1\n``` ok".data)]) (.ok []) =
      .ok ⟨200, .obj [(kSuccess, .bool true), (kResponse, resp)], 1⟩
    ∧ jsField resp kCode = .str (wrapFallbackCode "x=1\n".data)
    ∧ jsField resp kLanguage = .str (langGroupOrUnknown (some "py".data)) :=
  ⟨by decide,
   (claim3 "see ```py\nx=1\n``` ok".data [] [(kText, .str [])]
      "```py\nx=1\n```".data (some "py".data) "x=1\n".data
      (by decide) rfl rfl rfl).1⟩

/-- Claim C10: when the input of the heuristic-first handler contains a
closed fenced code block, the handler answers 200 without any model
call, and the Text field is the input with the first fenced match
removed and trimmed, or null when that removal leaves the empty
string. -/
theorem claim10 :
    ∀ (s full : Str) (lang : Option Str) (inner : Str) (envUrl envKey : Str)
      (fo : Except Str FetchResp),
      fencedSearch s = some (full, lang, inner) →
      (handlerB postMethod (.str s) envUrl envKey fo).status = 200
      ∧ (handlerB postMethod (.str s) envUrl envKey fo).modelCalls = 0
      ∧ jsField (handlerB postMethod (.str s) envUrl envKey fo).body kText =
          (if (trimStr (replaceFirst s full [])).isEmpty then JsVal.null
           else .str (trimStr (replaceFirst s full []))) := by
  intro s full lang inner envUrl envKey fo hfence
  have hctr := fencedSearch_contains hfence
  have hmem := containsTriple_mem hctr
  have hts : (trimStr s).isEmpty = false := trim_isEmpty_false hmem (by decide)
  have hsne : s.isEmpty = false := isEmpty_false_of_trim hts
  refine ⟨?_, ?_, ?_⟩ <;>
    simp only [handlerB, handlerBTry, inputTextOf, truthy, hsne, Bool.not_false,
      Bool.false_eq_true, if_false, hts, handlerBMain, hfence] <;>
    rfl

/-- Witness for claim C10 at a concrete fenced input, with the
environment unset and a failing fetch: the short circuit needs
neither. -/
theorem claim10_witness :
    fencedSearch "say ```js\nf()\n``` thanks".data =
      some ("```js\nf()\n```".data, some "js".data, "f()\n".data)
  ∧ (handlerB postMethod (.str "say ```js\nf()\n``` thanks".data) [] [] (.error [])).status = 200
  ∧ (handlerB postMethod (.str "say ```js\nf()\n``` thanks".data) [] [] (.error [])).modelCalls = 0
  ∧ jsField (handlerB postMethod (.str "say ```js\nf()\n``` thanks".data) [] []
      (.error [])).body kText =
      (if (trimStr (replaceFirst "say ```js\nf()\n``` thanks".data
            "```js\nf()\n```".data [])).isEmpty then JsVal.null
       else .str (trimStr (replaceFirst "say ```js\nf()\n``` thanks".data
            "```js\nf()\n```".data []))) :=
  ⟨rfl, claim10 "say ```js\nf()\n``` thanks".data "```js\nf()\n```".data
    (some "js".data) "f()\n".data [] [] (.error []) rfl⟩

/-- A whitespace character is not a word character. -/
theorem ws_not_word {c : Char} (h : isWsChar c = true) : isWordChar c = false := by
  unfold isWsChar at h
  simp only [Bool.or_eq_true, decide_eq_true_eq] at h
  rcases h with ((((h | h) | h) | h) | h) | h <;> subst h <;> decide

/-- A word character is not a whitespace character. -/
theorem word_not_ws {c : Char} (h : isWordChar c = true) : isWsChar c = false := by
  cases hw : isWsChar c with
  | false => rfl
  | true =>
    rw [ws_not_word hw] at h
    cases h

/-- A dropWhile over characters that all fail the predicate. -/
theorem dropWhile_eq_self_of_all {p : Char → Bool} (s : Str)
    (h : ∀ c ∈ s, p c = false) : s.dropWhile p = s := by
  cases s with
  | nil => rfl
  | cons c t =>
    rw [List.dropWhile_cons_of_neg (by simp [h c (List.mem_cons_self c t)])]

/-- Trimming a string with no whitespace characters is the identity. -/
theorem trimStr_eq_self_of_no_ws (s : Str) (h : ∀ c ∈ s, isWsChar c = false) :
    trimStr s = s := by
  unfold trimStr
  rw [dropWhile_eq_self_of_all s h,
    dropWhile_eq_self_of_all s.reverse (by intro c hc; exact h c (by simpa using hc)),
    List.reverse_reverse]

/-- The leftmost scan of the fenced-code regex: when no earlier position
starts a fence and the attempt at the current position succeeds, the
search returns that match. -/
theorem fencedSearch_at {rest : Str} {m : Str × Option Str × Str} : ∀ (pre : Str),
    (∀ i, i < pre.length → tripleTick.isPrefixOf ((pre ++ rest).drop i) = false) →
    tryFenceAt rest = some m →
    fencedSearch (pre ++ rest) = some m := by
  intro pre
  induction pre with
  | nil =>
    intro _ ht
    cases rest with
    | nil =>
      have hn : tryFenceAt ([] : Str) = none := rfl
      rw [hn] at ht
      cases ht
    | cons c rest2 =>
      show fencedSearch (c :: rest2) = some m
      unfold fencedSearch
      rw [ht]
  | cons c pre2 ih =>
    intro hno ht
    have h0 : tripleTick.isPrefixOf (c :: (pre2 ++ rest)) = false := by
      have := hno 0 (by simp)
      simpa using this
    show fencedSearch (c :: (pre2 ++ rest)) = some m
    unfold fencedSearch
    have htf : tryFenceAt (c :: (pre2 ++ rest)) = none := by
      unfold tryFenceAt
      rw [h0]
      rfl
    rw [htf]
    exact ih (fun i hi => by
      have := hno (i + 1) (by simpa using Nat.succ_lt_succ hi)
      simpa using this) ht

/-- One attempt of the fenced-code regex at the opening fence of a
well-formed block: the word group takes exactly the declared tag, the
whitespace group takes the leading whitespace of the content, and the
lazy group reaches the closing fence, which is the first fence after the
content starts. -/
theorem tryFenceAt_block (tag inner post : Str)
    (h1 : ∀ c ∈ tag, isWordChar c = true)
    (h2 : ∀ c t2, inner = c :: t2 → isWordChar c = false)
    (hinner : splitSub tripleTick (inner ++ (tripleTick ++ post)) = some (inner, post)) :
    tryFenceAt (tripleTick ++ (tag ++ (inner ++ (tripleTick ++ post)))) =
      some (tripleTick ++ tag ++ (inner.takeWhile isWsChar)
              ++ (inner.dropWhile isWsChar) ++ tripleTick,
            (if tag.isEmpty then none else some tag),
            inner.dropWhile isWsChar) := by
  have hpre1 : tripleTick.isPrefixOf
      (tripleTick ++ (tag ++ (inner ++ (tripleTick ++ post)))) = true :=
    List.isPrefixOf_iff_prefix.mpr (List.prefix_append _ _)
  have hEq2 : inner ++ (tripleTick ++ post) =
      (inner.takeWhile isWsChar) ++ ((inner.dropWhile isWsChar) ++ (tripleTick ++ post)) := by
    conv_rhs => rw [← List.append_assoc, List.takeWhile_append_dropWhile]
  have hEq : (inner ++ (tripleTick ++ post)).drop (inner.takeWhile isWsChar).length =
      (inner.dropWhile isWsChar) ++ (tripleTick ++ post) := by
    rw [hEq2, List.drop_left]
  have hlen : inner.length =
      (inner.takeWhile isWsChar).length + (inner.dropWhile isWsChar).length := by
    have hcg := congrArg List.length
      (List.takeWhile_append_dropWhile (p := isWsChar) (l := inner))
    simp only [List.length_append] at hcg
    omega
  have hno : ∀ i, i < (inner.dropWhile isWsChar).length →
      tripleTick.isPrefixOf
        (((inner.dropWhile isWsChar) ++ (tripleTick ++ post)).drop i) = false := by
    intro i hi
    rw [← hEq, List.drop_drop]
    exact splitSub_no_early hinner ((inner.takeWhile isWsChar).length + i) (by omega)
  have hsplit := @splitSub_construct tripleTick (inner.dropWhile isWsChar) post hno
  have hdrop3 : List.drop 3 (tripleTick ++ (tag ++ (inner ++ (tripleTick ++ post)))) =
      tag ++ (inner ++ (tripleTick ++ post)) := by
    rw [show (3 : Nat) = tripleTick.length from rfl]
    exact List.drop_left _ _
  have htailhead : List.takeWhile isWordChar (inner ++ (tripleTick ++ post)) = [] := by
    cases inner with
    | nil => rfl
    | cons c t2 =>
      have hc := h2 c t2 rfl
      rw [List.cons_append, List.takeWhile_cons_of_neg (by simp [hc])]
  have htag : List.takeWhile isWordChar (tag ++ (inner ++ (tripleTick ++ post))) = tag := by
    rw [takeWhile_append_all tag _ h1, htailhead, List.append_nil]
  have hwstail : List.takeWhile isWsChar
      ((inner.dropWhile isWsChar) ++ (tripleTick ++ post)) = [] := by
    cases hdi : inner.dropWhile isWsChar with
    | nil => rfl
    | cons c t2 =>
      have hc := head_dropWhile_false inner c t2 hdi
      rw [List.cons_append, List.takeWhile_cons_of_neg (by simp [hc])]
  have hws : List.takeWhile isWsChar (inner ++ (tripleTick ++ post)) =
      inner.takeWhile isWsChar := by
    rw [hEq2, takeWhile_append_all _ _ (fun c hc => List.mem_takeWhile_imp hc),
      hwstail, List.append_nil]
  unfold tryFenceAt
  rw [if_pos hpre1]
  simp only [hdrop3, htag, List.drop_left, hws, hEq, hsplit]

/-- Claim C4: for every input holding a well-formed fenced code block —
an opening fence that is the first fence of the input, an optional
all-word language tag, content that does not start with a word
character, and a closing fence that is the first fence after the content
starts — the fenced-code extraction of the heuristic-first handler
returns the inner text trimmed of leading and trailing whitespace as the
code, and the declared language tag when one is present.  Only the first
such block is used: the text after the closing fence is arbitrary and
may contain further blocks. -/
theorem claim4 :
    ∀ (pre tag inner post : Str),
      (∀ c ∈ tag, isWordChar c = true) →
      (∀ c t2, inner = c :: t2 → isWordChar c = false) →
      splitSub tripleTick
        (pre ++ (tripleTick ++ (tag ++ (inner ++ (tripleTick ++ post))))) =
        some (pre, tag ++ (inner ++ (tripleTick ++ post))) →
      splitSub tripleTick (inner ++ (tripleTick ++ post)) = some (inner, post) →
      (∃ l, fencedExtractB
          (pre ++ (tripleTick ++ (tag ++ (inner ++ (tripleTick ++ post))))) =
          some (l, trimStr inner))
      ∧ (tag ≠ [] → fencedExtractB
          (pre ++ (tripleTick ++ (tag ++ (inner ++ (tripleTick ++ post))))) =
          some (tag, trimStr inner)) := by
  intro pre tag inner post h1 h2 hpre hinner
  have htry := tryFenceAt_block tag inner post h1 h2 hinner
  have hsearch := fencedSearch_at pre (fun i hi => splitSub_no_early hpre i hi) htry
  have htrim : trimStr (inner.dropWhile isWsChar) = trimStr inner := trimStr_dropWhile inner
  cases tag with
  | nil =>
    refine ⟨⟨detectLanguageFromCode (inner.dropWhile isWsChar), ?_⟩,
      fun hne => absurd rfl hne⟩
    simp only [fencedExtractB, hsearch, List.isEmpty_nil, if_true, htrim]
    rfl
  | cons a b =>
    have htagtrim : trimStr (a :: b) = a :: b :=
      trimStr_eq_self_of_no_ws _ (fun c hc => word_not_ws (h1 c hc))
    have hfeb : fencedExtractB
        (pre ++ (tripleTick ++ ((a :: b) ++ (inner ++ (tripleTick ++ post))))) =
        some (a :: b, trimStr inner) := by
      simp only [fencedExtractB, hsearch, List.isEmpty_cons, Bool.false_eq_true, if_false,
        htagtrim, htrim]
    exact ⟨⟨a :: b, hfeb⟩, fun _ => hfeb⟩

/-- Witness for claim C4: a concrete input with a tagged fenced block
followed by a second block; the extraction returns the declared tag and
the trimmed inner text of the first block only. -/
theorem claim4_witness :
    fencedExtractB "Look: ```python\nprint(1)\n``` done ```more``` end".data =
      some ("python".data, "print(1)".data) :=
  (claim4 "Look: ".data "python".data "\nprint(1)\n".data " done ```more``` end".data
    (by decide)
    (by
      intro c t2 h
      injection h with hc ht2
      rw [← hc]
      decide)
    rfl rfl).2 (by decide)

/-- Witness for the amended claim C8 at concrete throwing model calls. -/
theorem claim8_amended_witness :
    handlerA postMethod (.obj [(ktext, .str "hi".data)]) (.error "network down".data) =
      .ok ⟨500, err500 "network down".data, 1⟩
  ∧ handlerB postMethod (.str "hello".data) "u".data "k".data (.error "boom".data) =
      ⟨500, .obj [(kError, .str "Internal server error".data),
            (kDetails, .str "boom".data)], 1⟩ :=
  ⟨claim8_amended.1 "hi".data "network down".data (by decide),
   claim8_amended.2 "hello".data "boom".data "u".data "k".data rfl rfl (by decide) rfl rfl⟩
